import Mathlib

/-!
# Verification of the persistence layer of `helper_google_drive`

A shallow embedding of `src/database.py`: the SQLite store is modelled as
lists of rows, `CURRENT_TIMESTAMP` as an explicit `now : Nat` argument, and
the Python `json` payload encoding as an executable serializer together with
a parser for the canonical serialized format (`json.loads` is modelled as
that parser; any input it does not accept stands for a `JSONDecodeError`).
Machine-checked statements of the spec's claims about this layer follow the
definitions.
-/

namespace HGD

/-- Structured payload values: the model of the Python values handed to
`json.dumps` and produced by `json.loads` in `database.py` (numbers
restricted to integers, which is all this persistence layer ever stores;
the code never does arithmetic on a decoded payload). -/
inductive Json where
  | null
  | bool (b : Bool)
  | num (n : Int)
  | str (s : String)
  | arr (elems : List Json)
  | obj (fields : List (String × Json))
deriving Repr

/-- Lowercase hexadecimal digit, as used by Python's `\u00xx` escapes. -/
def hexChar (n : Nat) : Char :=
  if n < 10 then Char.ofNat (48 + n) else Char.ofNat (87 + n)

/-- Model of the character escaping of `json.dumps(..., ensure_ascii=False)`:
quote, backslash and the short control escapes get two-character escapes,
the remaining control characters get `\u00xx`, and every other character —
including every non-ASCII character — is emitted literally. -/
def escChar (c : Char) : List Char :=
  if c = '"' then ['\\', '"']
  else if c = '\\' then ['\\', '\\']
  else if c = '\n' then ['\\', 'n']
  else if c = '\t' then ['\\', 't']
  else if c = '\r' then ['\\', 'r']
  else if c = '\x08' then ['\\', 'b']
  else if c = '\x0c' then ['\\', 'f']
  else if c.toNat < 32 then
    ['\\', 'u', '0', '0', hexChar (c.toNat / 16), hexChar (c.toNat % 16)]
  else [c]

def escChars (cs : List Char) : List Char :=
  cs.foldr (fun c acc => escChar c ++ acc) []

/-- A serialized JSON string: quote, escaped body, quote. -/
def dumpStrChars (s : String) : List Char :=
  '"' :: escChars s.data ++ ['"']

/-- Decimal digit character (`'0'` + d). -/
def digChar (d : Nat) : Char := Char.ofNat (48 + d)

/-- Decimal digits of `m`, most significant first (empty for `m = 0`);
the fuel argument only drives the recursion. -/
def natCharsAux : Nat → Nat → List Char
  | 0, _ => []
  | fuel + 1, m => if m = 0 then [] else natCharsAux fuel (m / 10) ++ [digChar (m % 10)]

/-- Decimal representation of a natural number, as Python prints it. -/
def natChars (m : Nat) : List Char :=
  if m = 0 then ['0'] else natCharsAux (m + 1) m

/-- Decimal representation of an integer, as Python prints it. -/
def intChars (n : Int) : List Char :=
  if n < 0 then '-' :: natChars n.natAbs else natChars n.toNat

mutual
/-- Model of `json.dumps(..., ensure_ascii=False)` (default separators
`", "` and `": "`), producing the serialized character list. -/
def dumpChars : Json → List Char
  | .null => 'n' :: 'u' :: 'l' :: 'l' :: []
  | .bool true => 't' :: 'r' :: 'u' :: 'e' :: []
  | .bool false => 'f' :: 'a' :: 'l' :: 's' :: 'e' :: []
  | .num n => intChars n
  | .str s => dumpStrChars s
  | .arr [] => ['[', ']']
  | .arr (v :: vs) => '[' :: (dumpChars v ++ dumpTail vs) ++ [']']
  | .obj [] => ['\x7b', '\x7d']
  | .obj (kv :: kvs) => '\x7b' :: (dumpMember kv ++ dumpMemTail kvs) ++ ['\x7d']
/-- The `", "`-separated rendering of the elements after the first. -/
def dumpTail : List Json → List Char
  | [] => []
  | v :: vs => ',' :: ' ' :: (dumpChars v ++ dumpTail vs)
/-- One `"key": value` member of an object. -/
def dumpMember : String × Json → List Char
  | (k, v) => dumpStrChars k ++ ':' :: ' ' :: dumpChars v
/-- The `", "`-separated rendering of the members after the first. -/
def dumpMemTail : List (String × Json) → List Char
  | [] => []
  | kv :: kvs => ',' :: ' ' :: (dumpMember kv ++ dumpMemTail kvs)
end

/-- `json.dumps(data, ensure_ascii=False)` as used at `database.py` lines
283 and 573. -/
def dumps (j : Json) : String := String.mk (dumpChars j)

/-- Value of a list of decimal digit characters, most significant first. -/
def digitsVal (cs : List Char) : Nat :=
  cs.foldl (fun a c => 10 * a + (c.toNat - 48)) 0

/-- Parse a maximal nonempty run of decimal digits. -/
def parseNat (cs : List Char) : Option (Nat × List Char) :=
  let ds := cs.takeWhile (fun c => c.isDigit)
  if ds = [] then none
  else some (digitsVal ds, cs.dropWhile (fun c => c.isDigit))

/-- Value of one hexadecimal digit character, if it is one. -/
def hexVal (c : Char) : Option Nat :=
  if '0' ≤ c ∧ c ≤ '9' then some (c.toNat - 48)
  else if 'a' ≤ c ∧ c ≤ 'f' then some (c.toNat - 87)
  else if 'A' ≤ c ∧ c ≤ 'F' then some (c.toNat - 55)
  else none

/-- Parse the body of a JSON string after the opening quote, returning the
unescaped characters and the input after the closing quote. -/
def parseStrBody : List Char → Option (List Char × List Char)
  | [] => none
  | c :: rest =>
    if c = '"' then some ([], rest)
    else if c = '\\' then
      match rest with
      | [] => none
      | e :: cs =>
        if e = '"' then (parseStrBody cs).map fun p => ('"' :: p.1, p.2)
        else if e = '\\' then (parseStrBody cs).map fun p => ('\\' :: p.1, p.2)
        else if e = '/' then (parseStrBody cs).map fun p => ('/' :: p.1, p.2)
        else if e = 'n' then (parseStrBody cs).map fun p => ('\n' :: p.1, p.2)
        else if e = 't' then (parseStrBody cs).map fun p => ('\t' :: p.1, p.2)
        else if e = 'r' then (parseStrBody cs).map fun p => ('\r' :: p.1, p.2)
        else if e = 'b' then (parseStrBody cs).map fun p => ('\x08' :: p.1, p.2)
        else if e = 'f' then (parseStrBody cs).map fun p => ('\x0c' :: p.1, p.2)
        else if e = 'u' then
          match cs with
          | h1 :: h2 :: h3 :: h4 :: cs2 =>
            match hexVal h1, hexVal h2, hexVal h3, hexVal h4 with
            | some a, some b, some c3, some d =>
              (parseStrBody cs2).map fun p =>
                (Char.ofNat (4096 * a + 256 * b + 16 * c3 + d) :: p.1, p.2)
            | _, _, _, _ => none
          | _ => none
        else none
    else (parseStrBody rest).map fun p => (c :: p.1, p.2)

mutual
/-- Recursive-descent parser for the canonical serialized format produced by
`dumpChars`: the model of `json.loads` on the store's own output (any input
outside this format models a `JSONDecodeError`). Returns the value and the
unconsumed input. -/
def parseVal : Nat → List Char → Option (Json × List Char)
  | 0, _ => none
  | _ + 1, [] => none
  | fuel + 1, c :: cs =>
    if c = 'n' then
      match cs with
      | 'u' :: 'l' :: 'l' :: rest => some (.null, rest)
      | _ => none
    else if c = 't' then
      match cs with
      | 'r' :: 'u' :: 'e' :: rest => some (.bool true, rest)
      | _ => none
    else if c = 'f' then
      match cs with
      | 'a' :: 'l' :: 's' :: 'e' :: rest => some (.bool false, rest)
      | _ => none
    else if c = '"' then
      (parseStrBody cs).map fun p => (.str (String.mk p.1), p.2)
    else if c = '-' then
      (parseNat cs).map fun p => (.num (-(p.1 : Int)), p.2)
    else if c.isDigit then
      (parseNat (c :: cs)).map fun p => (.num (p.1 : Int), p.2)
    else if c = '[' then
      match cs with
      | [] => none
      | c2 :: cs2 =>
        if c2 = ']' then some (.arr [], cs2)
        else
          match parseVal fuel (c2 :: cs2) with
          | some (v, r2) =>
            match parseElems fuel r2 with
            | some (vs, r3) => some (.arr (v :: vs), r3)
            | none => none
          | none => none
    else if c = '\x7b' then
      match cs with
      | [] => none
      | c2 :: cs2 =>
        if c2 = '\x7d' then some (.obj [], cs2)
        else if c2 = '"' then
          match parseStrBody cs2 with
          | some (kcs, r) =>
            match r with
            | ':' :: ' ' :: r2 =>
              match parseVal fuel r2 with
              | some (v, r3) =>
                match parseMembers fuel r3 with
                | some (kvs, r4) => some (.obj ((String.mk kcs, v) :: kvs), r4)
                | none => none
              | none => none
            | _ => none
          | none => none
        else none
    else none
/-- After one array element: either `]` closes the array or `, ` precedes
the next element. -/
def parseElems : Nat → List Char → Option (List Json × List Char)
  | 0, _ => none
  | _ + 1, [] => none
  | fuel + 1, c :: cs =>
    if c = ']' then some ([], cs)
    else if c = ',' then
      match cs with
      | ' ' :: cs2 =>
        match parseVal fuel cs2 with
        | some (v, r2) =>
          match parseElems fuel r2 with
          | some (vs, r3) => some (v :: vs, r3)
          | none => none
        | none => none
      | _ => none
    else none
/-- After one object member: either the closing brace ends the object or
`, ` precedes the next `"key": value` member. -/
def parseMembers : Nat → List Char → Option (List (String × Json) × List Char)
  | 0, _ => none
  | _ + 1, [] => none
  | fuel + 1, c :: cs =>
    if c = '\x7d' then some ([], cs)
    else if c = ',' then
      match cs with
      | ' ' :: '"' :: cs2 =>
        match parseStrBody cs2 with
        | some (kcs, r) =>
          match r with
          | ':' :: ' ' :: r2 =>
            match parseVal fuel r2 with
            | some (v, r3) =>
              match parseMembers fuel r3 with
              | some (kvs, r4) => some ((String.mk kcs, v) :: kvs, r4)
              | none => none
            | none => none
          | _ => none
        | none => none
      | _ => none
    else none
end

/-- Model of `json.loads` at the decode sites of `database.py`: parse the
whole input as one canonical value; anything else is a decode failure. -/
def loads (s : String) : Option Json :=
  match parseVal (s.data.length + 1) s.data with
  | some (j, []) => some j
  | _ => none

mutual
/-- Fuel sufficient for `parseVal` to parse `dumpChars j` (one unit per
recursion level; proof infrastructure only). -/
def jweight : Json → Nat
  | .null => 1
  | .bool _ => 1
  | .num _ => 1
  | .str _ => 1
  | .arr vs => jweightL vs
  | .obj kvs => jweightF kvs
/-- Fuel sufficient for `parseElems` on `dumpTail vs`. -/
def jweightL : List Json → Nat
  | [] => 1
  | v :: vs => 1 + jweight v + jweightL vs
/-- Fuel sufficient for `parseMembers` on `dumpMemTail kvs`. -/
def jweightF : List (String × Json) → Nat
  | [] => 1
  | kv :: kvs => 1 + jweight kv.2 + jweightF kvs
end

/-- The character classes that may legally follow a serialized number in
the canonical format: end of input or a non-digit (the parser's maximal
munch stops there). -/
def NumBoundary : List Char → Prop
  | [] => True
  | c :: _ => c.isDigit = false

/-! ## The store

Rows model the four core tables of `database.py`; timestamps are `Nat`
(ISO text timestamps compare like their values), nullable columns are
`Option`, and each table is a list in rowid order together with its
autoincrement counter. -/

/-- One row of `pending_folders`. -/
structure PendingFolder where
  id : Nat
  folder_id : String
  name : String
  emoji : String
  status : String
  error_reason : Option String
  created_at : Nat
  updated_at : Nat
  processed_at : Option Nat
deriving Repr, DecidableEq

/-- One row of `document_extractions`. -/
structure DocumentExtraction where
  id : Nat
  pending_folder_id : Option Nat
  folder_id : String
  doc_type : String
  file_id : Option String
  file_name : Option String
  data_json : String
  created_at : Nat
  updated_at : Nat
deriving Repr, DecidableEq

/-- One row of `reports`. The two `REAL` columns are modelled as `ℚ`
(exact container for any stored numeric; the code never computes on them). -/
structure Report where
  id : Nat
  pending_folder_id : Nat
  folder_id : String
  plus_value : Option ℚ
  plus_value_details : Option String
  evaluation_value : Option ℚ
  evaluation_details : Option String
  final_synthesis : Option String
  final_doc_id : Option String
  final_doc_link : Option String
  created_at : Nat
  updated_at : Nat
deriving Repr, DecidableEq

/-- One row of `processing_errors`. -/
structure ProcessingError where
  id : Nat
  pending_folder_id : Nat
  stage : Option String
  doc_type : Option String
  error_code : Option String
  message : String
  raw_payload : Option String
  created_at : Nat
deriving Repr, DecidableEq

/-- The whole store. -/
structure DB where
  pending_folders : List PendingFolder
  document_extractions : List DocumentExtraction
  reports : List Report
  processing_errors : List ProcessingError
  next_pf_id : Nat
  next_de_id : Nat
  next_rep_id : Nat
  next_err_id : Nat
deriving Repr, DecidableEq

/-- A fresh store, as `init_db` creates it (sqlite rowids start at 1). -/
def emptyDB : DB := ⟨[], [], [], [], 1, 1, 1, 1⟩

/-- The integrity constraints sqlite enforces on this schema:
`UNIQUE(folder_id)` on `pending_folders`, `UNIQUE(folder_id, doc_type)` on
`document_extractions`, `UNIQUE(pending_folder_id)` on `reports`. -/
def DB.WF (db : DB) : Prop :=
  (db.pending_folders.map (fun r => r.folder_id)).Nodup ∧
  (db.document_extractions.map (fun d => (d.folder_id, d.doc_type))).Nodup ∧
  (db.reports.map (fun r => r.pending_folder_id)).Nodup

instance (db : DB) : Decidable db.WF := by unfold DB.WF; infer_instance

/-- Update the rows satisfying `p` in place, leaving the rest alone: the
effect of an `UPDATE ... WHERE p` / `ON CONFLICT DO UPDATE`. -/
def updIf (p : α → Bool) (f : α → α) (l : List α) : List α :=
  l.map fun a => if p a then f a else a

/-- `enqueue_pending_folder` (`database.py` lines 213-234): insert with
status `'queued'`, or on a `folder_id` conflict reset the existing row. -/
def enqueue_pending_folder (db : DB) (folder_id name emoji : String)
    (now : Nat) : DB :=
  match db.pending_folders.find? (fun r => r.folder_id == folder_id) with
  | some _ =>
    { db with
      pending_folders := updIf (fun r => r.folder_id == folder_id)
        (fun r => { r with
          name := name
          emoji := emoji
          status := "queued"
          error_reason := none
          updated_at := now
          processed_at := none }) db.pending_folders }
  | none =>
    { db with
      pending_folders := db.pending_folders ++
        [⟨db.next_pf_id, folder_id, name, emoji, "queued", none, now, now, none⟩]
      next_pf_id := db.next_pf_id + 1 }

/-- Comparison used by `ORDER BY created_at ASC`. -/
def byCreatedAsc (a b : PendingFolder) : Prop := a.created_at ≤ b.created_at

instance : DecidableRel byCreatedAsc := fun x y => Nat.decLe x.created_at y.created_at

/-- `get_pending_folders` (lines 237-248): optional exact-status filter
(Python's `if status:` treats the empty string as no filter), then
`ORDER BY created_at ASC`. -/
def get_pending_folders (db : DB) (status : Option String) : List PendingFolder :=
  let rows := match status with
    | some st => if st = "" then db.pending_folders
                 else db.pending_folders.filter (fun r => r.status == st)
    | none => db.pending_folders
  List.insertionSort byCreatedAsc rows

/-- `update_pending_status` (lines 251-270): set status and error reason,
refresh `updated_at`, and compute `processed_at` from the new status. -/
def update_pending_status (db : DB) (folder_id status : String)
    (error_reason : Option String) (now : Nat) : DB :=
  { db with
    pending_folders := updIf (fun r => r.folder_id == folder_id)
      (fun r => { r with
        status := status
        error_reason := error_reason
        updated_at := now
        processed_at :=
          if status = "done" then some now
          else if status = "queued" ∨ status = "processing" then none
          else r.processed_at }) db.pending_folders }

/-- `save_document_extraction` (lines 273-311): encode the payload with
`json.dumps(..., ensure_ascii=False)`, then upsert on
`(folder_id, doc_type)`. -/
def save_document_extraction (db : DB) (pending_folder_id : Option Nat)
    (folder_id doc_type : String) (file_id file_name : Option String)
    (data : Json) (now : Nat) : DB :=
  let payload := dumps data
  match db.document_extractions.find?
      (fun r => r.folder_id == folder_id && r.doc_type == doc_type) with
  | some _ =>
    { db with
      document_extractions := updIf
        (fun r => r.folder_id == folder_id && r.doc_type == doc_type)
        (fun r => { r with
          pending_folder_id := pending_folder_id
          file_id := file_id
          file_name := file_name
          data_json := payload
          updated_at := now }) db.document_extractions }
  | none =>
    { db with
      document_extractions := db.document_extractions ++
        [⟨db.next_de_id, pending_folder_id, folder_id, doc_type, file_id,
          file_name, payload, now, now⟩]
      next_de_id := db.next_de_id + 1 }

/-- `get_document_extraction` (lines 314-326): single-row lookup. -/
def get_document_extraction (db : DB) (folder_id doc_type : String) :
    Option DocumentExtraction :=
  db.document_extractions.find?
    (fun r => r.folder_id == folder_id && r.doc_type == doc_type)

/-- The three states a `save_report_entry` keyword argument can be in:
left at the `_UNSET` sentinel, explicitly `None`, or an explicit value. -/
inductive Patch (α : Type) where
  | unset
  | explicitNone
  | value (v : α)
deriving Repr, DecidableEq

/-- `resolve_value` inside `save_report_entry` (lines 563-566): an omitted
argument keeps the stored field (null when no row exists yet, which the
caller passes in as `existingField`), `None` clears, a value overwrites. -/
def resolve_value (new_value : Patch α) (existingField : Option α) : Option α :=
  match new_value with
  | .unset => existingField
  | .explicitNone => none
  | .value v => some v

/-- `resolve_details` inside `save_report_entry` (lines 568-573): like
`resolve_value` but an explicit value is stored `json.dumps`-encoded. -/
def resolve_details (new_value : Patch Json) (existingField : Option String) :
    Option String :=
  match new_value with
  | .unset => existingField
  | .explicitNone => none
  | .value v => some (dumps v)

/-- `save_report_entry` (lines 533-619): read the existing row for
`pending_folder_id`, resolve all seven optional fields three-ways, then
upsert on `pending_folder_id`. `final_synthesis`, `final_doc_id` and
`final_doc_link` go through `resolve_value`, i.e. are stored as passed. -/
def save_report_entry (db : DB) (pending_folder_id : Nat) (folder_id : String)
    (plus_value : Patch ℚ) (plus_value_details : Patch Json)
    (evaluation_value : Patch ℚ) (evaluation_details : Patch Json)
    (final_synthesis final_doc_id final_doc_link : Patch String)
    (now : Nat) : DB :=
  let existing := db.reports.find? (fun r => r.pending_folder_id == pending_folder_id)
  let plus_val := resolve_value plus_value (existing.bind (fun r => r.plus_value))
  let plus_details := resolve_details plus_value_details
    (existing.bind (fun r => r.plus_value_details))
  let eval_val := resolve_value evaluation_value
    (existing.bind (fun r => r.evaluation_value))
  let eval_details := resolve_details evaluation_details
    (existing.bind (fun r => r.evaluation_details))
  let synth_text := resolve_value final_synthesis
    (existing.bind (fun r => r.final_synthesis))
  let doc_id := resolve_value final_doc_id (existing.bind (fun r => r.final_doc_id))
  let doc_link := resolve_value final_doc_link
    (existing.bind (fun r => r.final_doc_link))
  match existing with
  | some _ =>
    { db with
      reports := updIf (fun r => r.pending_folder_id == pending_folder_id)
        (fun r => { r with
          folder_id := folder_id
          plus_value := plus_val
          plus_value_details := plus_details
          evaluation_value := eval_val
          evaluation_details := eval_details
          final_synthesis := synth_text
          final_doc_id := doc_id
          final_doc_link := doc_link
          updated_at := now }) db.reports }
  | none =>
    { db with
      reports := db.reports ++
        [⟨db.next_rep_id, pending_folder_id, folder_id, plus_val, plus_details,
          eval_val, eval_details, synth_text, doc_id, doc_link, now, now⟩]
      next_rep_id := db.next_rep_id + 1 }

/-- `get_report` (lines 622-629): raw single-row lookup, no decoding. -/
def get_report (db : DB) (pending_folder_id : Nat) : Option Report :=
  db.reports.find? (fun r => r.pending_folder_id == pending_folder_id)

/-! ## The read views and their decode policy -/

/-- The decode applied to a nullable stored payload column in both read
views: `json.loads(payload) if payload else None`, with a
`JSONDecodeError` caught and turned into `None` — the explicit absent
marker. (Python's `if payload` also treats the empty string as absent.) -/
def decodePayload : Option String → Option Json
  | none => none
  | some s => if s = "" then none else loads s

/-- The three outcomes of the `final_synthesis` decode in the read views:
an absent payload, a payload that parses as structured data, or a payload
kept as raw text because it does not parse. -/
inductive SynthView where
  | absent
  | decoded (j : Json)
  | rawText (s : String)
deriving Repr

/-- The `final_synthesis` decode (lines 517-523): attempt `json.loads`,
fall back to the raw payload on `JSONDecodeError`. -/
def decodeSynth : Option String → SynthView
  | none => .absent
  | some s =>
    if s = "" then .absent
    else
      match loads s with
      | some j => .decoded j
      | none => .rawText s

/-- A report row as the read views return it (lines 498-523): the two
`*_details` payloads decoded to `None` on failure, `final_synthesis`
decoded with raw-text fallback, every other column as stored. -/
structure ReportView where
  id : Nat
  pending_folder_id : Nat
  folder_id : String
  plus_value : Option ℚ
  plus_value_details : Option Json
  evaluation_value : Option ℚ
  evaluation_details : Option Json
  final_synthesis : SynthView
  final_doc_id : Option String
  final_doc_link : Option String
  created_at : Nat
  updated_at : Nat
deriving Repr

def reportView (r : Report) : ReportView :=
  { id := r.id
    pending_folder_id := r.pending_folder_id
    folder_id := r.folder_id
    plus_value := r.plus_value
    plus_value_details := decodePayload r.plus_value_details
    evaluation_value := r.evaluation_value
    evaluation_details := decodePayload r.evaluation_details
    final_synthesis := decodeSynth r.final_synthesis
    final_doc_id := r.final_doc_id
    final_doc_link := r.final_doc_link
    created_at := r.created_at
    updated_at := r.updated_at }

/-- A document row as the read views return it: the row plus its decoded
`data` field (`None` both for an empty payload and on decode failure). -/
def docView (d : DocumentExtraction) : DocumentExtraction × Option Json :=
  (d, decodePayload (some d.data_json))

/-- Comparison used by `ORDER BY created_at DESC` on documents. -/
def docByCreatedDesc (a b : DocumentExtraction) : Prop :=
  b.created_at ≤ a.created_at

instance : DecidableRel docByCreatedDesc := fun x y => Nat.decLe y.created_at x.created_at

/-- Comparison used by `ORDER BY created_at ASC, id ASC` on errors. -/
def errByCreatedIdAsc (a b : ProcessingError) : Prop :=
  a.created_at < b.created_at ∨ (a.created_at = b.created_at ∧ a.id ≤ b.id)

instance : DecidableRel errByCreatedIdAsc := fun a b => by
  unfold errByCreatedIdAsc; infer_instance

/-- `get_job_with_details`'s result (lines 525-530). -/
structure JobDetails where
  job : PendingFolder
  documents : List (DocumentExtraction × Option Json)
  report : Option ReportView
  errors : List ProcessingError
deriving Repr

/-- `get_job_with_details` (lines 454-530): `None` for an unknown
`folder_id`; otherwise the job row joined with its decoded documents
(newest first), its decoded report and its error history. -/
def get_job_with_details (db : DB) (folder_id : String) : Option JobDetails :=
  match db.pending_folders.find? (fun r => r.folder_id == folder_id) with
  | none => none
  | some job =>
    some
      { job := job
        documents :=
          (List.insertionSort docByCreatedDesc
            (db.document_extractions.filter
              (fun d => d.folder_id == folder_id))).map docView
        report := (db.reports.find?
          (fun r => r.pending_folder_id == job.id)).map reportView
        errors := List.insertionSort errByCreatedIdAsc
          (db.processing_errors.filter
            (fun e => e.pending_folder_id == job.id)) }

/-- The fallback join of `list_jobs_with_extractions` (line 402): a
document is attached to `doc["pending_folder_id"] or
folder_to_job_id.get(doc["folder_id"])`. -/
def targetId (jobs : List PendingFolder) (d : DocumentExtraction) : Option Nat :=
  match d.pending_folder_id with
  | some pid => some pid
  | none => (jobs.find? (fun j => j.folder_id == d.folder_id)).map (fun j => j.id)

/-- One entry of `list_jobs_with_extractions`'s result. -/
structure JobEntry where
  job : PendingFolder
  documents : List (DocumentExtraction × Option Json)
  report : Option ReportView
deriving Repr

/-- `list_jobs_with_extractions` (lines 379-451): every job (newest first)
joined with the decoded documents that target it (newest first) and its
decoded report, if any. -/
def list_jobs_with_extractions (db : DB) : List JobEntry :=
  let jobs := List.insertionSort
    (fun a b : PendingFolder => b.created_at ≤ a.created_at) db.pending_folders
  jobs.map fun j =>
    { job := j
      documents :=
        ((List.insertionSort docByCreatedDesc db.document_extractions).filter
          (fun d => targetId jobs d == some j.id)).map docView
      report := (db.reports.find?
        (fun r => r.pending_folder_id == j.id)).map reportView }

/-! ## Round-trip of the payload encoding

`loads (dumps j) = some j` for every payload: the encoder's output is in
the canonical format and the parser reads it back exactly. -/

theorem digChar_isDigit (d : Nat) (h : d < 10) : (digChar d).isDigit = true := by
  interval_cases d <;> decide

theorem digChar_toNat (d : Nat) (h : d < 10) : (digChar d).toNat - 48 = d := by
  interval_cases d <;> decide

theorem digitsVal_append (xs : List Char) (c : Char) :
    digitsVal (xs ++ [c]) = 10 * digitsVal xs + (c.toNat - 48) := by
  simp [digitsVal, List.foldl_append]

theorem natCharsAux_spec (fuel : Nat) : ∀ m, m ≤ fuel →
    (∀ c ∈ natCharsAux fuel m, c.isDigit = true) ∧
    digitsVal (natCharsAux fuel m) = m := by
  induction fuel with
  | zero =>
    intro m hm
    interval_cases m
    simp [natCharsAux, digitsVal]
  | succ fuel ih =>
    intro m hm
    by_cases h0 : m = 0
    · subst h0; simp [natCharsAux, digitsVal]
    · have hdiv : m / 10 ≤ fuel := by
        have := Nat.div_lt_self (Nat.pos_of_ne_zero h0) (by norm_num : 1 < 10)
        omega
      obtain ⟨hd, hv⟩ := ih (m / 10) hdiv
      have hmod : m % 10 < 10 := Nat.mod_lt m (by norm_num)
      constructor
      · intro c hc
        simp only [natCharsAux, if_neg h0, List.mem_append, List.mem_singleton] at hc
        rcases hc with hc | hc
        · exact hd c hc
        · subst hc; exact digChar_isDigit _ hmod
      · simp only [natCharsAux, if_neg h0, digitsVal_append, hv, digChar_toNat _ hmod]
        omega

theorem natChars_digits (m : Nat) : ∀ c ∈ natChars m, c.isDigit = true := by
  intro c hc
  by_cases h0 : m = 0
  · subst h0; simp [natChars] at hc; subst hc; decide
  · simp only [natChars, if_neg h0] at hc
    exact (natCharsAux_spec (m + 1) m (by omega)).1 c hc

theorem natChars_val (m : Nat) : digitsVal (natChars m) = m := by
  by_cases h0 : m = 0
  · subst h0; simp [natChars, digitsVal]
  · simp only [natChars, if_neg h0]
    exact (natCharsAux_spec (m + 1) m (by omega)).2

theorem natChars_ne_nil (m : Nat) : natChars m ≠ [] := by
  by_cases h0 : m = 0
  · subst h0; simp [natChars]
  · simp only [natChars, if_neg h0]
    cases hfuel : natCharsAux (m + 1) m with
    | nil =>
      have := (natCharsAux_spec (m + 1) m (by omega)).2
      rw [hfuel] at this
      simp [digitsVal] at this
      exact absurd this.symm h0
    | cons c cs => simp

theorem parseNat_natChars (m : Nat) (rest : List Char) (hb : NumBoundary rest) :
    parseNat (natChars m ++ rest) = some (m, rest) := by
  have hall : ∀ c ∈ natChars m, (fun c => c.isDigit) c = true := natChars_digits m
  have hrest_take : rest.takeWhile (fun c => c.isDigit) = [] := by
    cases rest with
    | nil => simp
    | cons c cs =>
      simp only [NumBoundary] at hb
      simp [List.takeWhile_cons, hb]
  have hrest_drop : rest.dropWhile (fun c => c.isDigit) = rest := by
    cases rest with
    | nil => simp
    | cons c cs =>
      simp only [NumBoundary] at hb
      simp [List.dropWhile_cons, hb]
  have htake : (natChars m ++ rest).takeWhile (fun c => c.isDigit) = natChars m := by
    rw [List.takeWhile_append_of_pos hall, hrest_take, List.append_nil]
  have hdrop : (natChars m ++ rest).dropWhile (fun c => c.isDigit) = rest := by
    rw [List.dropWhile_append_of_pos hall, hrest_drop]
  simp [parseNat, htake, hdrop, natChars_ne_nil, natChars_val]

theorem isDigit_facts (c : Char) (h : c.isDigit = true) :
    c ≠ 'n' ∧ c ≠ 't' ∧ c ≠ 'f' ∧ c ≠ '"' ∧ c ≠ '-' ∧ c ≠ '[' ∧ c ≠ '\x7b' ∧
    c ≠ ']' ∧ c ≠ ',' ∧ c ≠ '\x7d' := by
  refine ⟨?_, ?_, ?_, ?_, ?_, ?_, ?_, ?_, ?_, ?_⟩ <;>
    (rintro rfl; exact absurd h (by decide))

theorem hexVal_hexChar (d : Nat) (h : d < 16) : hexVal (hexChar d) = some d := by
  interval_cases d <;> decide

/-! ### Step lemmas: one reduction of each parser clause -/

theorem psb_quote (rest : List Char) : parseStrBody ('"' :: rest) = some ([], rest) := by
  conv_lhs => rw [parseStrBody.eq_def]
  simp

theorem psb_esc (e c : Char) (cs : List Char)
    (h : (e, c) = ('"', '"') ∨ (e, c) = ('\\', '\\') ∨ (e, c) = ('/', '/') ∨
      (e, c) = ('n', '\n') ∨ (e, c) = ('t', '\t') ∨ (e, c) = ('r', '\r') ∨
      (e, c) = ('b', '\x08') ∨ (e, c) = ('f', '\x0c')) :
    parseStrBody ('\\' :: e :: cs) = (parseStrBody cs).map fun p => (c :: p.1, p.2) := by
  rcases h with h | h | h | h | h | h | h | h <;>
    (injection h with h1 h2; subst h1; subst h2; conv_lhs => rw [parseStrBody.eq_def]) <;>
    simp

theorem psb_esc_u (h1 h2 h3 h4 : Char) (cs : List Char) (a b c3 d : Nat)
    (ha : hexVal h1 = some a) (hb : hexVal h2 = some b) (hc : hexVal h3 = some c3)
    (hd : hexVal h4 = some d) :
    parseStrBody ('\\' :: 'u' :: h1 :: h2 :: h3 :: h4 :: cs) =
      (parseStrBody cs).map fun p =>
        (Char.ofNat (4096 * a + 256 * b + 16 * c3 + d) :: p.1, p.2) := by
  conv_lhs => rw [parseStrBody.eq_def]
  simp [ha, hb, hc, hd]

theorem psb_lit (c : Char) (cs : List Char) (h1 : c ≠ '"') (h2 : c ≠ '\\') :
    parseStrBody (c :: cs) = (parseStrBody cs).map fun p => (c :: p.1, p.2) := by
  conv_lhs => rw [parseStrBody.eq_def]
  simp [h1, h2]

/-- Unescaping inverts escaping: the parser reads an escaped string body
back to the original characters and stops at the closing quote. -/
theorem parseStrBody_escChars (cs : List Char) : ∀ rest,
    parseStrBody (escChars cs ++ '"' :: rest) = some (cs, rest) := by
  induction cs with
  | nil => intro rest; simp [escChars, psb_quote]
  | cons c cs ih =>
    intro rest
    have hesc : escChars (c :: cs) = escChar c ++ escChars cs := rfl
    rw [hesc, List.append_assoc]
    by_cases h1 : c = '"'
    · subst h1
      simp [escChar, psb_esc '"' '"' _ (by simp), ih]
    · by_cases h2 : c = '\\'
      · subst h2
        simp [escChar, psb_esc '\\' '\\' _ (by simp), ih]
      · by_cases h3 : c = '\n'
        · subst h3
          simp [escChar, psb_esc 'n' '\n' _ (by simp), ih]
        · by_cases h4 : c = '\t'
          · subst h4
            simp [escChar, psb_esc 't' '\t' _ (by simp), ih]
          · by_cases h5 : c = '\r'
            · subst h5
              simp [escChar, psb_esc 'r' '\r' _ (by simp), ih]
            · by_cases h6 : c = '\x08'
              · subst h6
                simp [escChar, psb_esc 'b' '\x08' _ (by simp), ih]
              · by_cases h7 : c = '\x0c'
                · subst h7
                  simp [escChar, psb_esc 'f' '\x0c' _ (by simp), ih]
                · by_cases h8 : c.toNat < 32
                  · have hdiv : c.toNat / 16 < 16 := by omega
                    have hmod : c.toNat % 16 < 16 := Nat.mod_lt _ (by norm_num)
                    simp only [escChar, if_neg h1, if_neg h2, if_neg h3, if_neg h4,
                      if_neg h5, if_neg h6, if_neg h7, if_pos h8, List.cons_append,
                      List.nil_append]
                    rw [psb_esc_u '0' '0' _ _ _ 0 0 _ _ (by decide) (by decide)
                      (hexVal_hexChar _ hdiv) (hexVal_hexChar _ hmod), ih]
                    have heq : 16 * (c.toNat / 16) + c.toNat % 16 = c.toNat := by
                      omega
                    simp [heq, Char.ofNat_toNat]
                  · simp only [escChar, if_neg h1, if_neg h2, if_neg h3, if_neg h4,
                      if_neg h5, if_neg h6, if_neg h7, if_neg h8, List.cons_append,
                      List.nil_append]
                    rw [psb_lit c _ h1 h2, ih]
                    simp

theorem pv_null (fuel : Nat) (rest : List Char) :
    parseVal (fuel + 1) ('n' :: 'u' :: 'l' :: 'l' :: rest) = some (.null, rest) := by
  conv_lhs => rw [parseVal.eq_def]
  simp

theorem pv_true (fuel : Nat) (rest : List Char) :
    parseVal (fuel + 1) ('t' :: 'r' :: 'u' :: 'e' :: rest) = some (.bool true, rest) := by
  conv_lhs => rw [parseVal.eq_def]
  simp

theorem pv_false (fuel : Nat) (rest : List Char) :
    parseVal (fuel + 1) ('f' :: 'a' :: 'l' :: 's' :: 'e' :: rest) =
      some (.bool false, rest) := by
  conv_lhs => rw [parseVal.eq_def]
  simp

theorem pv_str (fuel : Nat) (cs : List Char) :
    parseVal (fuel + 1) ('"' :: cs) =
      (parseStrBody cs).map fun p => (.str (String.mk p.1), p.2) := by
  conv_lhs => rw [parseVal.eq_def]
  simp

theorem pv_neg (fuel : Nat) (cs : List Char) :
    parseVal (fuel + 1) ('-' :: cs) =
      (parseNat cs).map fun p => (.num (-(p.1 : Int)), p.2) := by
  conv_lhs => rw [parseVal.eq_def]
  simp

theorem pv_digit (fuel : Nat) (c : Char) (cs : List Char) (h : c.isDigit = true) :
    parseVal (fuel + 1) (c :: cs) =
      (parseNat (c :: cs)).map fun p => (.num (p.1 : Int), p.2) := by
  obtain ⟨hn, ht, hf, hq, hm, _, _, _, _, _⟩ := isDigit_facts c h
  conv_lhs => rw [parseVal.eq_def]
  simp [hn, ht, hf, hq, hm, h]

theorem pv_arr_nil (fuel : Nat) (cs : List Char) :
    parseVal (fuel + 1) ('[' :: ']' :: cs) = some (.arr [], cs) := by
  conv_lhs => rw [parseVal.eq_def]
  simp

theorem pv_arr_cons (fuel : Nat) (c2 : Char) (cs2 r2 r3 : List Char) (v : Json)
    (vs : List Json) (hne : c2 ≠ ']') (hv : parseVal fuel (c2 :: cs2) = some (v, r2))
    (he : parseElems fuel r2 = some (vs, r3)) :
    parseVal (fuel + 1) ('[' :: c2 :: cs2) = some (.arr (v :: vs), r3) := by
  conv_lhs => rw [parseVal.eq_def]
  simp [hne, hv, he]

theorem pv_obj_nil (fuel : Nat) (cs : List Char) :
    parseVal (fuel + 1) ('\x7b' :: '\x7d' :: cs) = some (.obj [], cs) := by
  conv_lhs => rw [parseVal.eq_def]
  simp

theorem pv_obj_cons (fuel : Nat) (cs2 r2 r3 r4 : List Char) (kcs : List Char)
    (v : Json) (kvs : List (String × Json))
    (hk : parseStrBody cs2 = some (kcs, ':' :: ' ' :: r2))
    (hv : parseVal fuel r2 = some (v, r3))
    (hm : parseMembers fuel r3 = some (kvs, r4)) :
    parseVal (fuel + 1) ('\x7b' :: '"' :: cs2) =
      some (.obj ((String.mk kcs, v) :: kvs), r4) := by
  conv_lhs => rw [parseVal.eq_def]
  simp [hk, hv, hm]

theorem pe_close (fuel : Nat) (cs : List Char) :
    parseElems (fuel + 1) (']' :: cs) = some ([], cs) := by
  conv_lhs => rw [parseElems.eq_def]
  simp

theorem pe_comma (fuel : Nat) (cs2 r2 r3 : List Char) (v : Json) (vs : List Json)
    (hv : parseVal fuel cs2 = some (v, r2)) (he : parseElems fuel r2 = some (vs, r3)) :
    parseElems (fuel + 1) (',' :: ' ' :: cs2) = some (v :: vs, r3) := by
  conv_lhs => rw [parseElems.eq_def]
  simp [hv, he]

theorem pm_close (fuel : Nat) (cs : List Char) :
    parseMembers (fuel + 1) ('\x7d' :: cs) = some ([], cs) := by
  conv_lhs => rw [parseMembers.eq_def]
  simp

theorem pm_comma (fuel : Nat) (cs2 r2 r3 r4 : List Char) (kcs : List Char) (v : Json)
    (kvs : List (String × Json)) (hk : parseStrBody cs2 = some (kcs, ':' :: ' ' :: r2))
    (hv : parseVal fuel r2 = some (v, r3))
    (hm : parseMembers fuel r3 = some (kvs, r4)) :
    parseMembers (fuel + 1) (',' :: ' ' :: '"' :: cs2) =
      some ((String.mk kcs, v) :: kvs, r4) := by
  conv_lhs => rw [parseMembers.eq_def]
  simp [hk, hv, hm]

/-- A serialized integer parses back to itself when a non-digit follows. -/
theorem pv_num (n : Int) (fuel : Nat) (rest : List Char) (hb : NumBoundary rest) :
    parseVal (fuel + 1) (intChars n ++ rest) = some (.num n, rest) := by
  by_cases hn : n < 0
  · simp only [intChars, if_pos hn, List.cons_append]
    rw [pv_neg, parseNat_natChars _ _ hb]
    simp only [Option.map_some', Option.some.injEq, Prod.mk.injEq, Json.num.injEq]
    exact ⟨by omega, trivial⟩
  · simp only [intChars, if_neg hn]
    obtain ⟨d, ds, hds⟩ := List.exists_cons_of_ne_nil (natChars_ne_nil n.toNat)
    have hd : d.isDigit = true := natChars_digits n.toNat d (by rw [hds]; simp)
    rw [hds, List.cons_append, pv_digit _ _ _ hd, ← List.cons_append, ← hds,
      parseNat_natChars _ _ hb]
    simp only [Option.map_some', Option.some.injEq, Prod.mk.injEq, Json.num.injEq]
    exact ⟨by omega, trivial⟩

/-- Every serialized value starts with a character other than `]` (what the
array-element dispatch in `parseVal` needs to know about a first element). -/
theorem dump_head (j : Json) : ∃ c cs, dumpChars j = c :: cs ∧ c ≠ ']' := by
  cases j with
  | null => exact ⟨'n', _, rfl, by decide⟩
  | bool b =>
    cases b with
    | true => exact ⟨'t', _, rfl, by decide⟩
    | false => exact ⟨'f', _, rfl, by decide⟩
  | num n =>
    by_cases hn : n < 0
    · refine ⟨'-', natChars n.natAbs, ?_, by decide⟩
      simp [dumpChars, intChars, hn]
    · obtain ⟨d, ds, hds⟩ := List.exists_cons_of_ne_nil (natChars_ne_nil n.toNat)
      have hd : d.isDigit = true := natChars_digits n.toNat d (by rw [hds]; simp)
      refine ⟨d, ds, ?_, (isDigit_facts d hd).2.2.2.2.2.2.2.1⟩
      simp [dumpChars, intChars, hn, hds]
  | str s =>
    refine ⟨'"', escChars s.data ++ ['"'], ?_, by decide⟩
    simp [dumpChars, dumpStrChars]
  | arr vs =>
    cases vs with
    | nil => exact ⟨'[', [']'], by simp [dumpChars], by decide⟩
    | cons v vs =>
      refine ⟨'[', (dumpChars v ++ dumpTail vs) ++ [']'], ?_, by decide⟩
      simp [dumpChars]
  | obj kvs =>
    cases kvs with
    | nil => exact ⟨'\x7b', ['\x7d'], by simp [dumpChars], by decide⟩
    | cons kv kvs =>
      refine ⟨'\x7b', (dumpMember kv ++ dumpMemTail kvs) ++ ['\x7d'], ?_, by decide⟩
      simp [dumpChars]

theorem numBoundary_dumpTail (vs : List Json) (rest : List Char) :
    NumBoundary (dumpTail vs ++ ']' :: rest) := by
  cases vs with
  | nil => simp [dumpTail, NumBoundary]
  | cons v vs => simp [dumpTail, NumBoundary]

theorem numBoundary_dumpMemTail (kvs : List (String × Json)) (rest : List Char) :
    NumBoundary (dumpMemTail kvs ++ '\x7d' :: rest) := by
  cases kvs with
  | nil => simp [dumpMemTail, NumBoundary]
  | cons kv kvs => simp [dumpMemTail, NumBoundary]

theorem one_le_jweightL (vs : List Json) : 1 ≤ jweightL vs := by
  cases vs with
  | nil => simp [jweightL]
  | cons v vs => simp only [jweightL]; omega

theorem one_le_jweightF (kvs : List (String × Json)) : 1 ≤ jweightF kvs := by
  cases kvs with
  | nil => simp [jweightF]
  | cons kv kvs => simp only [jweightF]; omega

theorem one_le_jweight (j : Json) : 1 ≤ jweight j := by
  cases j with
  | arr vs => simpa [jweight] using one_le_jweightL vs
  | obj kvs => simpa [jweight] using one_le_jweightF kvs
  | null => simp [jweight]
  | bool b => simp [jweight]
  | num n => simp [jweight]
  | str s => simp [jweight]

/-- The canonical parser reads back exactly what the serializer wrote, at
every level of the value, given fuel at least the value's weight. -/
theorem parse_dump_master : ∀ n : Nat,
    (∀ j : Json, sizeOf j ≤ n → ∀ fuel rest, jweight j ≤ fuel → NumBoundary rest →
      parseVal fuel (dumpChars j ++ rest) = some (j, rest)) ∧
    (∀ vs : List Json, sizeOf vs ≤ n → ∀ fuel rest, jweightL vs ≤ fuel →
      parseElems fuel (dumpTail vs ++ ']' :: rest) = some (vs, rest)) ∧
    (∀ kvs : List (String × Json), sizeOf kvs ≤ n → ∀ fuel rest, jweightF kvs ≤ fuel →
      parseMembers fuel (dumpMemTail kvs ++ '\x7d' :: rest) = some (kvs, rest)) := by
  intro n
  induction n with
  | zero =>
    refine ⟨fun j hj => ?_, fun vs hs => ?_, fun kvs hs => ?_⟩
    · exact absurd hj (by cases j <;> simp)
    · exact absurd hs (by cases vs <;> simp)
    · exact absurd hs (by cases kvs <;> simp)
  | succ n ih =>
    obtain ⟨ihv, ihe, ihm⟩ := ih
    refine ⟨fun j hj fuel rest hw hb => ?_, fun vs hs fuel rest hw => ?_,
      fun kvs hs fuel rest hw => ?_⟩
    · obtain ⟨f, rfl⟩ : ∃ f, fuel = f + 1 :=
        ⟨fuel - 1, by have := one_le_jweight j; omega⟩
      cases j with
      | null => simpa [dumpChars] using pv_null f rest
      | bool b =>
        cases b with
        | true => simpa [dumpChars] using pv_true f rest
        | false => simpa [dumpChars] using pv_false f rest
      | num m => simpa [dumpChars] using pv_num m f rest hb
      | str s =>
        have hshape : dumpChars (.str s) ++ rest =
            '"' :: (escChars s.data ++ '"' :: rest) := by
          simp [dumpChars, dumpStrChars]
        rw [hshape, pv_str, parseStrBody_escChars]
        simp
      | arr vs =>
        cases vs with
        | nil => simpa [dumpChars] using pv_arr_nil f rest
        | cons v vs =>
          have hsz : sizeOf v ≤ n ∧ sizeOf vs ≤ n := by simp at hj; omega
          have hwts : jweight v ≤ f ∧ jweightL vs ≤ f := by
            have h1 := one_le_jweight v
            have h2 := one_le_jweightL vs
            simp only [jweight, jweightL] at hw
            omega
          obtain ⟨c2, cs2, hc2, hne⟩ := dump_head v
          have hshape : dumpChars (.arr (v :: vs)) ++ rest =
              '[' :: (c2 :: (cs2 ++ (dumpTail vs ++ ']' :: rest))) := by
            simp [dumpChars, hc2]
          rw [hshape]
          refine pv_arr_cons f c2 _ _ _ v vs hne ?_ (ihe vs hsz.2 f rest hwts.2)
          rw [show c2 :: (cs2 ++ (dumpTail vs ++ ']' :: rest)) =
            (c2 :: cs2) ++ (dumpTail vs ++ ']' :: rest) by simp, ← hc2]
          exact ihv v hsz.1 f _ hwts.1 (numBoundary_dumpTail vs rest)
      | obj kvs =>
        cases kvs with
        | nil => simpa [dumpChars] using pv_obj_nil f rest
        | cons kv kvs =>
          obtain ⟨k, v⟩ := kv
          have hsz : sizeOf v ≤ n ∧ sizeOf kvs ≤ n := by simp at hj; omega
          have hwts : jweight v ≤ f ∧ jweightF kvs ≤ f := by
            have h1 := one_le_jweight v
            have h2 := one_le_jweightF kvs
            simp only [jweight, jweightF] at hw
            omega
          have hshape : dumpChars (.obj ((k, v) :: kvs)) ++ rest =
              '\x7b' :: ('"' :: (escChars k.data ++ ('"' :: (':' :: ' ' ::
                (dumpChars v ++ (dumpMemTail kvs ++ '\x7d' :: rest)))))) := by
            simp [dumpChars, dumpMember, dumpStrChars]
          rw [hshape]
          have hkparse : parseStrBody (escChars k.data ++ ('"' :: (':' :: ' ' ::
              (dumpChars v ++ (dumpMemTail kvs ++ '\x7d' :: rest))))) =
              some (k.data, ':' :: ' ' ::
                (dumpChars v ++ (dumpMemTail kvs ++ '\x7d' :: rest))) := by
            simpa using parseStrBody_escChars k.data _
          have hstep := pv_obj_cons f _ _ _ _ k.data v kvs hkparse
            (ihv v hsz.1 f _ hwts.1 (numBoundary_dumpMemTail kvs rest))
            (ihm kvs hsz.2 f rest hwts.2)
          rw [hstep]
    · obtain ⟨f, rfl⟩ : ∃ f, fuel = f + 1 :=
        ⟨fuel - 1, by have := one_le_jweightL vs; omega⟩
      cases vs with
      | nil => simpa [dumpTail] using pe_close f rest
      | cons v vs =>
        have hsz : sizeOf v ≤ n ∧ sizeOf vs ≤ n := by simp at hs; omega
        have hwts : jweight v ≤ f ∧ jweightL vs ≤ f := by
          have h1 := one_le_jweight v
          have h2 := one_le_jweightL vs
          simp only [jweightL] at hw
          omega
        have hshape : dumpTail (v :: vs) ++ ']' :: rest =
            ',' :: ' ' :: (dumpChars v ++ (dumpTail vs ++ ']' :: rest)) := by
          simp [dumpTail]
        rw [hshape]
        exact pe_comma f _ _ _ v vs
          (ihv v hsz.1 f _ hwts.1 (numBoundary_dumpTail vs rest))
          (ihe vs hsz.2 f rest hwts.2)
    · obtain ⟨f, rfl⟩ : ∃ f, fuel = f + 1 :=
        ⟨fuel - 1, by have := one_le_jweightF kvs; omega⟩
      cases kvs with
      | nil => simpa [dumpMemTail] using pm_close f rest
      | cons kv kvs =>
        obtain ⟨k, v⟩ := kv
        have hsz : sizeOf v ≤ n ∧ sizeOf kvs ≤ n := by simp at hs; omega
        have hwts : jweight v ≤ f ∧ jweightF kvs ≤ f := by
          have h1 := one_le_jweight v
          have h2 := one_le_jweightF kvs
          simp only [jweightF] at hw
          omega
        have hshape : dumpMemTail ((k, v) :: kvs) ++ '\x7d' :: rest =
            ',' :: ' ' :: '"' :: (escChars k.data ++ ('"' :: (':' :: ' ' ::
              (dumpChars v ++ (dumpMemTail kvs ++ '\x7d' :: rest))))) := by
          simp [dumpMemTail, dumpMember, dumpStrChars]
        rw [hshape]
        have hkparse : parseStrBody (escChars k.data ++ ('"' :: (':' :: ' ' ::
            (dumpChars v ++ (dumpMemTail kvs ++ '\x7d' :: rest))))) =
            some (k.data, ':' :: ' ' ::
              (dumpChars v ++ (dumpMemTail kvs ++ '\x7d' :: rest))) := by
          simpa using parseStrBody_escChars k.data _
        have hstep := pm_comma f _ _ _ _ k.data v kvs hkparse
          (ihv v hsz.1 f _ hwts.1 (numBoundary_dumpMemTail kvs rest))
          (ihm kvs hsz.2 f rest hwts.2)
        rw [hstep]

/-- The fuel `loads` supplies (input length + 1) is always enough: a value's
weight never exceeds its serialized length. -/
theorem jweight_le_length : ∀ n : Nat,
    (∀ j : Json, sizeOf j ≤ n → jweight j ≤ (dumpChars j).length) ∧
    (∀ vs : List Json, sizeOf vs ≤ n → jweightL vs ≤ (dumpTail vs).length + 1) ∧
    (∀ kvs : List (String × Json), sizeOf kvs ≤ n →
      jweightF kvs ≤ (dumpMemTail kvs).length + 1) := by
  intro n
  induction n with
  | zero =>
    refine ⟨fun j hj => ?_, fun vs hs => ?_, fun kvs hs => ?_⟩
    · exact absurd hj (by cases j <;> simp)
    · exact absurd hs (by cases vs <;> simp)
    · exact absurd hs (by cases kvs <;> simp)
  | succ n ih =>
    obtain ⟨ihv, ihe, ihm⟩ := ih
    refine ⟨fun j hj => ?_, fun vs hs => ?_, fun kvs hs => ?_⟩
    · cases j with
      | null => simp [jweight, dumpChars]
      | bool b => cases b <;> simp [jweight, dumpChars]
      | num m =>
        have hlen : 1 ≤ (intChars m).length := by
          unfold intChars
          by_cases hm : m < 0
          · simp [hm]
          · simp only [if_neg hm]
            have := natChars_ne_nil m.toNat
            cases hnc : natChars m.toNat with
            | nil => exact absurd hnc this
            | cons c cs => simp
        simpa [jweight, dumpChars] using hlen
      | str t => simp [jweight, dumpChars, dumpStrChars]
      | arr vs =>
        cases vs with
        | nil => simp [jweight, jweightL, dumpChars]
        | cons v vs =>
          have h1 : sizeOf v ≤ n ∧ sizeOf vs ≤ n := by simp at hj; omega
          have hv := ihv v h1.1
          have hvs := ihe vs h1.2
          simp only [jweight, jweightL, dumpChars, List.length_append,
            List.length_cons, List.cons_append]
          omega
      | obj kvs =>
        cases kvs with
        | nil => simp [jweight, jweightF, dumpChars]
        | cons kv kvs =>
          obtain ⟨k, v⟩ := kv
          have h1 : sizeOf v ≤ n ∧ sizeOf kvs ≤ n := by simp at hj; omega
          have hv := ihv v h1.1
          have hkvs := ihm kvs h1.2
          simp only [jweight, jweightF, dumpChars, dumpMember, dumpStrChars,
            List.length_append, List.length_cons, List.cons_append]
          omega
    · cases vs with
      | nil => simp [jweightL, dumpTail]
      | cons v vs =>
        have h1 : sizeOf v ≤ n ∧ sizeOf vs ≤ n := by simp at hs; omega
        have hv := ihv v h1.1
        have hvs := ihe vs h1.2
        simp only [jweightL, dumpTail, List.length_append, List.length_cons]
        omega
    · cases kvs with
      | nil => simp [jweightF, dumpMemTail]
      | cons kv kvs =>
        obtain ⟨k, v⟩ := kv
        have h1 : sizeOf v ≤ n ∧ sizeOf kvs ≤ n := by simp at hs; omega
        have hv := ihv v h1.1
        have hkvs := ihm kvs h1.2
        simp only [jweightF, dumpMemTail, dumpMember, dumpStrChars,
          List.length_append, List.length_cons]
        omega

/-- Full round trip of the payload encoding: decoding a stored encoded
payload returns the original structure. -/
theorem loads_dumps (j : Json) : loads (dumps j) = some j := by
  have hw : jweight j ≤ (dumpChars j).length + 1 := by
    have := (jweight_le_length (sizeOf j)).1 j le_rfl
    omega
  have hparse := (parse_dump_master (sizeOf j)).1 j le_rfl
    ((dumpChars j).length + 1) [] hw trivial
  rw [List.append_nil] at hparse
  unfold loads dumps
  simp only [String.data]
  rw [hparse]

/-! ## List helpers for the upsert and lookup proofs -/

theorem updIf_nil {α : Type} (p : α → Bool) (f : α → α) : updIf p f [] = [] := rfl

theorem updIf_cons {α : Type} (p : α → Bool) (f : α → α) (a : α) (l : List α) :
    updIf p f (a :: l) = (if p a then f a else a) :: updIf p f l := rfl

theorem updIf_eq_self {α : Type} (p : α → Bool) (f : α → α) (l : List α)
    (h : ∀ a ∈ l, p a = false) : updIf p f l = l := by
  induction l with
  | nil => rfl
  | cons a l ih =>
    rw [updIf_cons, if_neg (by simp [h a (List.mem_cons_self a l)]),
      ih fun x hx => h x (List.mem_cons_of_mem a hx)]

theorem find?_updIf {α : Type} (p : α → Bool) (f : α → α) (l : List α)
    (hpres : ∀ a, p a = true → p (f a) = true) :
    (updIf p f l).find? p = (l.find? p).map f := by
  induction l with
  | nil => rfl
  | cons a l ih =>
    rw [updIf_cons]
    by_cases hpa : p a = true
    · rw [if_pos hpa, List.find?_cons_of_pos _ (hpres a hpa),
        List.find?_cons_of_pos _ hpa, Option.map_some']
    · rw [if_neg hpa, List.find?_cons_of_neg _ hpa, List.find?_cons_of_neg _ hpa, ih]

theorem countP_updIf {α : Type} (p : α → Bool) (f : α → α) (l : List α)
    (hpres : ∀ a, p (f a) = p a) :
    (updIf p f l).countP p = l.countP p := by
  induction l with
  | nil => rfl
  | cons a l ih =>
    rw [updIf_cons]
    by_cases hpa : p a = true
    · rw [if_pos hpa, List.countP_cons, List.countP_cons, ih, hpres a, hpa]
    · rw [if_neg hpa, List.countP_cons, List.countP_cons, ih]

theorem find?_append_of_none {α : Type} (p : α → Bool) (l1 l2 : List α)
    (h : l1.find? p = none) : (l1 ++ l2).find? p = l2.find? p := by
  induction l1 with
  | nil => rfl
  | cons a l ih =>
    have hpa : ¬p a = true := by
      intro hpa
      rw [List.find?_cons_of_pos _ hpa] at h
      exact absurd h (by simp)
    rw [List.find?_cons_of_neg _ hpa] at h
    rw [List.cons_append, List.find?_cons_of_neg _ hpa, ih h]

theorem find?_of_key_nodup {α β : Type} [DecidableEq β] (key : α → β) (k : β)
    (p : α → Bool) (hp : ∀ x, p x = true ↔ key x = k) :
    ∀ (l : List α), (l.map key).Nodup → ∀ r ∈ l, key r = k → l.find? p = some r := by
  intro l
  induction l with
  | nil => intro _ r hr; exact absurd hr (by simp)
  | cons a l ih =>
    intro hnd r hr hk
    simp only [List.map_cons, List.nodup_cons] at hnd
    rcases List.mem_cons.mp hr with rfl | hrl
    · exact List.find?_cons_of_pos _ ((hp _).mpr hk)
    · have hka : key a ≠ k := by
        intro hka
        apply hnd.1
        rw [hka, ← hk]
        exact List.mem_map_of_mem key hrl
      rw [List.find?_cons_of_neg _ (by simp [hp a, hka]), ih hnd.2 r hrl hk]

theorem countP_of_key_nodup {α β : Type} [DecidableEq β] (key : α → β) (k : β)
    (p : α → Bool) (hp : ∀ x, p x = true ↔ key x = k) :
    ∀ (l : List α), (l.map key).Nodup → ∀ r ∈ l, key r = k → l.countP p = 1 := by
  intro l
  induction l with
  | nil => intro _ r hr; exact absurd hr (by simp)
  | cons a l ih =>
    intro hnd r hr hk
    simp only [List.map_cons, List.nodup_cons] at hnd
    rcases List.mem_cons.mp hr with rfl | hrl
    · have hzero : l.countP p = 0 := by
        rw [List.countP_eq_zero]
        intro x hx hpx
        apply hnd.1
        rw [hk, ← (hp x).mp hpx]
        exact List.mem_map_of_mem key hx
      rw [List.countP_cons, hzero, if_pos ((hp _).mpr hk)]
    · have hka : key a ≠ k := by
        intro hka
        apply hnd.1
        rw [hka, ← hk]
        exact List.mem_map_of_mem key hrl
      rw [List.countP_cons, if_neg (by simp [hp a, hka]), ih hnd.2 r hrl hk]

theorem map_key_updIf {α β : Type} (key : α → β) (p : α → Bool) (f : α → α)
    (hkey : ∀ a, key (f a) = key a) :
    ∀ l : List α, (updIf p f l).map key = l.map key := by
  intro l
  induction l with
  | nil => rfl
  | cons a l ih =>
    rw [updIf_cons]
    by_cases hpa : p a = true
    · rw [if_pos hpa, List.map_cons, List.map_cons, hkey a, ih]
    · rw [if_neg hpa, List.map_cons, List.map_cons, ih]

/-! ## Stability of the `created_at` orderings -/

/-- Rows related by sharing surrogate id and creation time — what a repeat
enqueue preserves. -/
def RowSim (a b : PendingFolder) : Prop := a.id = b.id ∧ a.created_at = b.created_at

theorem orderedInsert_sim (a b : PendingFolder) (hab : RowSim a b) :
    ∀ (l l' : List PendingFolder), List.Forall₂ RowSim l l' →
    List.Forall₂ RowSim (List.orderedInsert byCreatedAsc a l)
      (List.orderedInsert byCreatedAsc b l') := by
  intro l l' h
  induction h with
  | nil => exact List.Forall₂.cons hab List.Forall₂.nil
  | @cons c d cs ds hcd htl ih =>
    simp only [List.orderedInsert]
    by_cases hle : byCreatedAsc a c
    · rw [if_pos hle, if_pos (show byCreatedAsc b d by
        unfold byCreatedAsc at hle ⊢
        rw [← hab.2, ← hcd.2]
        exact hle)]
      exact .cons hab (.cons hcd htl)
    · rw [if_neg hle, if_neg (show ¬byCreatedAsc b d by
        unfold byCreatedAsc at hle ⊢
        rw [← hab.2, ← hcd.2]
        exact hle)]
      exact .cons hcd ih

theorem insertionSort_sim :
    ∀ (l l' : List PendingFolder), List.Forall₂ RowSim l l' →
    List.Forall₂ RowSim (List.insertionSort byCreatedAsc l)
      (List.insertionSort byCreatedAsc l') := by
  intro l l' h
  induction h with
  | nil => exact .nil
  | @cons a b cs ds hab htl ih =>
    simp only [List.insertionSort]
    exact orderedInsert_sim a b hab _ _ ih

theorem forall2_map_id {l l' : List PendingFolder} (h : List.Forall₂ RowSim l l') :
    l.map (fun r => r.id) = l'.map (fun r => r.id) := by
  induction h with
  | nil => rfl
  | cons hab htl ih => simp only [List.map_cons, hab.1, ih]

theorem forall2_updIf_sim (p : PendingFolder → Bool)
    (f : PendingFolder → PendingFolder) (hsim : ∀ a, RowSim a (f a)) :
    ∀ l : List PendingFolder, List.Forall₂ RowSim l (updIf p f l) := by
  intro l
  induction l with
  | nil => exact .nil
  | cons a l ih =>
    rw [updIf_cons]
    by_cases hpa : p a = true
    · rw [if_pos hpa]; exact .cons (hsim a) ih
    · rw [if_neg hpa]; exact .cons ⟨rfl, rfl⟩ ih

/-! ## Behaviour of the job queue store -/

/-- The row reset applied by `enqueue`'s `ON CONFLICT DO UPDATE`. -/
def enqueueReset (name emoji : String) (now : Nat) (x : PendingFolder) :
    PendingFolder :=
  { x with
    name := name
    emoji := emoji
    status := "queued"
    error_reason := none
    updated_at := now
    processed_at := none }

theorem enqueue_found_pf (db : DB) (fid name emoji : String) (now : Nat)
    (r : PendingFolder)
    (hfind : db.pending_folders.find? (fun x => x.folder_id == fid) = some r) :
    (enqueue_pending_folder db fid name emoji now).pending_folders =
      updIf (fun x => x.folder_id == fid) (enqueueReset name emoji now)
        db.pending_folders := by
  unfold enqueue_pending_folder
  rw [hfind]
  rfl

theorem enqueue_notfound_pf (db : DB) (fid name emoji : String) (now : Nat)
    (hfind : db.pending_folders.find? (fun x => x.folder_id == fid) = none) :
    (enqueue_pending_folder db fid name emoji now).pending_folders =
      db.pending_folders ++
        [⟨db.next_pf_id, fid, name, emoji, "queued", none, now, now, none⟩] := by
  unfold enqueue_pending_folder
  rw [hfind]

theorem enqueue_keeps (db : DB) (fid name emoji : String) (now : Nat) :
    (enqueue_pending_folder db fid name emoji now).document_extractions =
        db.document_extractions ∧
      (enqueue_pending_folder db fid name emoji now).reports = db.reports := by
  unfold enqueue_pending_folder
  cases db.pending_folders.find? (fun x => x.folder_id == fid) <;> exact ⟨rfl, rfl⟩

theorem enqueue_WF (db : DB) (fid name emoji : String) (now : Nat) (hwf : db.WF) :
    (enqueue_pending_folder db fid name emoji now).WF := by
  obtain ⟨h1, h2, h3⟩ := hwf
  obtain ⟨hde, hrep⟩ := enqueue_keeps db fid name emoji now
  refine ⟨?_, by rw [hde]; exact h2, by rw [hrep]; exact h3⟩
  cases hfind : db.pending_folders.find? (fun x => x.folder_id == fid) with
  | some r =>
    rw [enqueue_found_pf db fid name emoji now r hfind,
      map_key_updIf (fun x : PendingFolder => x.folder_id) (fun x => x.folder_id == fid) (enqueueReset name emoji now) (fun a => rfl)]
    exact h1
  | none =>
    rw [enqueue_notfound_pf db fid name emoji now hfind, List.map_append]
    have hno : fid ∉ db.pending_folders.map (fun x => x.folder_id) := by
      intro hmem
      obtain ⟨x, hx, hxe⟩ := List.mem_map.mp hmem
      have := List.find?_eq_none.mp hfind x hx
      simp [hxe] at this
    simp [List.nodup_append, h1, hno]

theorem enqueue_count_one (db : DB) (fid name emoji : String) (now : Nat)
    (hwf : db.WF) :
    (enqueue_pending_folder db fid name emoji now).pending_folders.countP
      (fun r => r.folder_id == fid) = 1 := by
  cases hfind : db.pending_folders.find? (fun x => x.folder_id == fid) with
  | some r =>
    rw [enqueue_found_pf db fid name emoji now r hfind,
      countP_updIf (fun x => x.folder_id == fid) (enqueueReset name emoji now) db.pending_folders (fun a => rfl)]
    exact countP_of_key_nodup (fun x : PendingFolder => x.folder_id) fid (fun x => x.folder_id == fid) (fun x => by simp)
      db.pending_folders hwf.1 r (List.mem_of_find?_eq_some hfind)
      (by simpa using List.find?_some hfind)
  | none =>
    rw [enqueue_notfound_pf db fid name emoji now hfind, List.countP_append]
    have h0 : db.pending_folders.countP (fun r => r.folder_id == fid) = 0 := by
      rw [List.countP_eq_zero]
      exact List.find?_eq_none.mp hfind
    simp [h0]

/-- Claim C2: `enqueue` is an idempotent upsert on `folder_id`: one call
leaves exactly one row for the key, a repeat call still exactly one row,
and when the key already exists the call resets status to `queued`, clears
`error_reason` and `processed_at` whatever they were, and refreshes `name`,
`emoji` and `updated_at`, leaving everything else of the row unchanged. -/
theorem c2_enqueue_idempotent_upsert (db : DB) (fid name emoji name2 emoji2 : String)
    (now now2 : Nat) (hwf : db.WF) :
    ((enqueue_pending_folder db fid name emoji now).pending_folders.countP
        (fun r => r.folder_id == fid) = 1) ∧
    ((enqueue_pending_folder (enqueue_pending_folder db fid name emoji now) fid
        name2 emoji2 now2).pending_folders.countP (fun r => r.folder_id == fid) = 1) ∧
    (∀ r ∈ db.pending_folders, r.folder_id = fid →
      (enqueue_pending_folder db fid name emoji now).pending_folders.find?
          (fun x => x.folder_id == fid) =
        some (enqueueReset name emoji now r)) := by
  refine ⟨enqueue_count_one db fid name emoji now hwf,
    enqueue_count_one _ fid name2 emoji2 now2 (enqueue_WF db fid name emoji now hwf),
    fun r hr hfid => ?_⟩
  have hfind := find?_of_key_nodup (fun x : PendingFolder => x.folder_id) fid (fun x => x.folder_id == fid) (fun x => by simp)
    db.pending_folders hwf.1 r hr hfid
  rw [enqueue_found_pf db fid name emoji now r hfind,
    find?_updIf (fun x => x.folder_id == fid) (enqueueReset name emoji now) db.pending_folders (fun a ha => ha), hfind,
    Option.map_some']

theorem c2_witness :
    (enqueue_pending_folder
      ⟨[⟨1, "fA", "old", "x", "error", some "boom", 5, 6, some 7⟩], [], [], [],
        2, 1, 1, 1⟩ "fA" "N" "E" 9).pending_folders.countP
      (fun r => r.folder_id == "fA") = 1 :=
  (c2_enqueue_idempotent_upsert
    ⟨[⟨1, "fA", "old", "x", "error", some "boom", 5, 6, some 7⟩], [], [], [],
      2, 1, 1, 1⟩ "fA" "N" "E" "N2" "E2" 9 10 (by decide)).1

/-- Claim C3: for an existing job, `update_status` computes `processed_at`
from the new status alone — `done` stamps it, `queued`/`processing` clear
it, any other status (such as `error`) preserves it — and always refreshes
`updated_at` while setting `status` and `error_reason`. -/
theorem c3_update_status_processed_at (db : DB) (fid status : String)
    (er : Option String) (now : Nat) (hwf : db.WF) (r : PendingFolder)
    (hr : r ∈ db.pending_folders) (hfid : r.folder_id = fid) :
    ∃ r', (update_pending_status db fid status er now).pending_folders.find?
        (fun x => x.folder_id == fid) = some r' ∧
      r'.status = status ∧ r'.error_reason = er ∧ r'.updated_at = now ∧
      (status = "done" → r'.processed_at = some now) ∧
      ((status = "queued" ∨ status = "processing") → r'.processed_at = none) ∧
      (status ≠ "done" → status ≠ "queued" → status ≠ "processing" →
        r'.processed_at = r.processed_at) := by
  have hfind := find?_of_key_nodup (fun x : PendingFolder => x.folder_id) fid (fun x => x.folder_id == fid) (fun x => by simp)
    db.pending_folders hwf.1 r hr hfid
  have hpf : (update_pending_status db fid status er now).pending_folders.find?
      (fun x => x.folder_id == fid) =
      some { r with
        status := status
        error_reason := er
        updated_at := now
        processed_at := if status = "done" then some now
          else if status = "queued" ∨ status = "processing" then none
          else r.processed_at } := by
    unfold update_pending_status
    rw [find?_updIf (fun x => x.folder_id == fid)
      (fun r => { r with
        status := status
        error_reason := er
        updated_at := now
        processed_at := if status = "done" then some now
          else if status = "queued" ∨ status = "processing" then none
          else r.processed_at }) db.pending_folders (fun a ha => ha), hfind,
      Option.map_some']
  refine ⟨_, hpf, rfl, rfl, rfl, ?_, ?_, ?_⟩
  · intro h
    simp only [if_pos h]
  · intro h
    have hnd : ¬status = "done" := by
      rcases h with h | h <;> subst h <;> decide
    simp only [if_neg hnd, if_pos h]
  · intro h1 h2 h3
    simp only [if_neg h1, if_neg (not_or.mpr ⟨h2, h3⟩)]

theorem c3_witness :
    ∃ r', (update_pending_status
        ⟨[⟨1, "fA", "n", "x", "processing", none, 5, 6, some 7⟩], [], [], [],
          2, 1, 1, 1⟩ "fA" "error" (some "boom") 9).pending_folders.find?
        (fun x => x.folder_id == "fA") = some r' ∧
      r'.status = "error" ∧ r'.error_reason = some "boom" ∧ r'.updated_at = 9 ∧
      ("error" = "done" → r'.processed_at = some 9) ∧
      (("error" = "queued" ∨ "error" = "processing") → r'.processed_at = none) ∧
      ("error" ≠ "done" → "error" ≠ "queued" → "error" ≠ "processing" →
        r'.processed_at = some 7) :=
  c3_update_status_processed_at
    ⟨[⟨1, "fA", "n", "x", "processing", none, 5, 6, some 7⟩], [], [], [],
      2, 1, 1, 1⟩ "fA" "error" (some "boom") 9 (by decide)
    ⟨1, "fA", "n", "x", "processing", none, 5, 6, some 7⟩ (by decide) rfl

/-- Claim C7: `update_status` on a `folder_id` with no row is a no-op: the
whole store is returned unchanged and nothing is raised. -/
theorem c7_update_status_unknown_noop (db : DB) (fid status : String)
    (er : Option String) (now : Nat)
    (h : ∀ r ∈ db.pending_folders, r.folder_id ≠ fid) :
    update_pending_status db fid status er now = db := by
  unfold update_pending_status
  rw [updIf_eq_self _ _ _ (fun a ha => by simp [h a ha])]

theorem c7_witness :
    update_pending_status
      ⟨[⟨1, "fA", "n", "x", "queued", none, 5, 6, none⟩], [], [], [], 2, 1, 1, 1⟩
      "missing" "done" none 9 =
    ⟨[⟨1, "fA", "n", "x", "queued", none, 5, 6, none⟩], [], [], [], 2, 1, 1, 1⟩ :=
  c7_update_status_unknown_noop _ "missing" "done" none 9 (by decide)

/-- Claim C10: a repeat enqueue of an existing `folder_id` keeps the row's
surrogate id and `created_at` (touching only name, emoji, status,
error_reason, updated_at, processed_at), so the job keeps its position in
the `created_at`-ascending listing. -/
theorem c10_enqueue_preserves_identity (db : DB) (fid name emoji : String)
    (now : Nat) (hwf : db.WF) (r : PendingFolder) (hr : r ∈ db.pending_folders)
    (hfid : r.folder_id = fid) :
    (∃ r', (enqueue_pending_folder db fid name emoji now).pending_folders.find?
        (fun x => x.folder_id == fid) = some r' ∧
      r'.id = r.id ∧ r'.created_at = r.created_at ∧ r'.folder_id = r.folder_id ∧
      r'.name = name ∧ r'.emoji = emoji ∧ r'.status = "queued" ∧
      r'.error_reason = none ∧ r'.updated_at = now ∧ r'.processed_at = none) ∧
    ((get_pending_folders (enqueue_pending_folder db fid name emoji now) none).map
        (fun x => x.id) =
      (get_pending_folders db none).map (fun x => x.id)) := by
  have hfind := find?_of_key_nodup (fun x : PendingFolder => x.folder_id) fid (fun x => x.folder_id == fid) (fun x => by simp)
    db.pending_folders hwf.1 r hr hfid
  constructor
  · refine ⟨enqueueReset name emoji now r, ?_, rfl, rfl, rfl, rfl, rfl, rfl,
      rfl, rfl, rfl⟩
    rw [enqueue_found_pf db fid name emoji now r hfind,
      find?_updIf (fun x => x.folder_id == fid) (enqueueReset name emoji now) db.pending_folders (fun a ha => ha), hfind,
      Option.map_some']
  · unfold get_pending_folders
    rw [enqueue_found_pf db fid name emoji now r hfind]
    dsimp only
    exact (forall2_map_id (insertionSort_sim _ _
      (forall2_updIf_sim (fun x => x.folder_id == fid) (enqueueReset name emoji now)
        (fun a => ⟨rfl, rfl⟩) db.pending_folders))).symm

theorem c10_witness :
    ∃ r', (enqueue_pending_folder
        ⟨[⟨1, "fA", "n", "x", "error", some "b", 5, 6, some 7⟩,
          ⟨2, "fB", "m", "y", "queued", none, 8, 8, none⟩], [], [], [],
          3, 1, 1, 1⟩ "fA" "N" "E" 9).pending_folders.find?
        (fun x => x.folder_id == "fA") = some r' ∧
      r'.id = 1 ∧ r'.created_at = 5 ∧ r'.folder_id = "fA" ∧
      r'.name = "N" ∧ r'.emoji = "E" ∧ r'.status = "queued" ∧
      r'.error_reason = none ∧ r'.updated_at = 9 ∧ r'.processed_at = none :=
  (c10_enqueue_preserves_identity
    ⟨[⟨1, "fA", "n", "x", "error", some "b", 5, 6, some 7⟩,
      ⟨2, "fB", "m", "y", "queued", none, 8, 8, none⟩], [], [], [],
      3, 1, 1, 1⟩ "fA" "N" "E" 9 (by decide)
    ⟨1, "fA", "n", "x", "error", some "b", 5, 6, some 7⟩ (by decide) rfl).1

/-! ## Behaviour of the report store -/

/-- The update applied by `save_report_entry`'s `ON CONFLICT DO UPDATE`,
with the resolved column values already computed from the existing row. -/
def reportOverwrite (fid : String) (pv : Option ℚ) (pvd : Option String)
    (ev : Option ℚ) (evd : Option String) (synth did dlink : Option String)
    (now : Nat) (x : Report) : Report :=
  { x with
    folder_id := fid
    plus_value := pv
    plus_value_details := pvd
    evaluation_value := ev
    evaluation_details := evd
    final_synthesis := synth
    final_doc_id := did
    final_doc_link := dlink
    updated_at := now }

theorem save_report_found_reports (db : DB) (pfid : Nat) (fid : String)
    (p1 : Patch ℚ) (p2 : Patch Json) (p3 : Patch ℚ) (p4 : Patch Json)
    (p5 p6 p7 : Patch String) (now : Nat) (r : Report)
    (hfind : db.reports.find? (fun x => x.pending_folder_id == pfid) = some r) :
    (save_report_entry db pfid fid p1 p2 p3 p4 p5 p6 p7 now).reports =
      updIf (fun x => x.pending_folder_id == pfid)
        (reportOverwrite fid (resolve_value p1 r.plus_value)
          (resolve_details p2 r.plus_value_details)
          (resolve_value p3 r.evaluation_value)
          (resolve_details p4 r.evaluation_details)
          (resolve_value p5 r.final_synthesis)
          (resolve_value p6 r.final_doc_id)
          (resolve_value p7 r.final_doc_link) now) db.reports := by
  unfold save_report_entry
  rw [hfind]
  rfl

theorem save_report_notfound_reports (db : DB) (pfid : Nat) (fid : String)
    (p1 : Patch ℚ) (p2 : Patch Json) (p3 : Patch ℚ) (p4 : Patch Json)
    (p5 p6 p7 : Patch String) (now : Nat)
    (hfind : db.reports.find? (fun x => x.pending_folder_id == pfid) = none) :
    (save_report_entry db pfid fid p1 p2 p3 p4 p5 p6 p7 now).reports =
      db.reports ++
        [⟨db.next_rep_id, pfid, fid, resolve_value p1 none, resolve_details p2 none,
          resolve_value p3 none, resolve_details p4 none, resolve_value p5 none,
          resolve_value p6 none, resolve_value p7 none, now, now⟩] := by
  unfold save_report_entry
  rw [hfind]
  rfl

/-- Claim C1: `save_report` is a three-state merge-patch keyed on
`pending_folder_id`: after any call, the stored row for the key exists and,
field by field, an omitted argument keeps the value previously stored
(null when no row existed), an explicit null stores null, and an explicit
value overwrites (details fields stored payload-encoded). In particular,
starting from a report with `plus_value = 100`, a call supplying only
`evaluation_value = 50` leaves `plus_value = 100` beside
`evaluation_value = 50`, and a further call with `plus_value` explicitly
null yields `plus_value = none` with `evaluation_value = 50` intact. -/
theorem c1_save_report_merge_patch (db : DB) (pfid : Nat) (fid : String)
    (p1 : Patch ℚ) (p2 : Patch Json) (p3 : Patch ℚ) (p4 : Patch Json)
    (p5 p6 p7 : Patch String) (now : Nat) :
    (∃ r', (save_report_entry db pfid fid p1 p2 p3 p4 p5 p6 p7 now).reports.find?
        (fun x => x.pending_folder_id == pfid) = some r' ∧
      r'.pending_folder_id = pfid ∧
      r'.plus_value = (match p1 with
        | .unset => (db.reports.find? (fun x => x.pending_folder_id == pfid)).bind
            (fun x => x.plus_value)
        | .explicitNone => none
        | .value v => some v) ∧
      r'.plus_value_details = (match p2 with
        | .unset => (db.reports.find? (fun x => x.pending_folder_id == pfid)).bind
            (fun x => x.plus_value_details)
        | .explicitNone => none
        | .value v => some (dumps v)) ∧
      r'.evaluation_value = (match p3 with
        | .unset => (db.reports.find? (fun x => x.pending_folder_id == pfid)).bind
            (fun x => x.evaluation_value)
        | .explicitNone => none
        | .value v => some v) ∧
      r'.evaluation_details = (match p4 with
        | .unset => (db.reports.find? (fun x => x.pending_folder_id == pfid)).bind
            (fun x => x.evaluation_details)
        | .explicitNone => none
        | .value v => some (dumps v)) ∧
      r'.final_synthesis = (match p5 with
        | .unset => (db.reports.find? (fun x => x.pending_folder_id == pfid)).bind
            (fun x => x.final_synthesis)
        | .explicitNone => none
        | .value v => some v) ∧
      r'.final_doc_id = (match p6 with
        | .unset => (db.reports.find? (fun x => x.pending_folder_id == pfid)).bind
            (fun x => x.final_doc_id)
        | .explicitNone => none
        | .value v => some v) ∧
      r'.final_doc_link = (match p7 with
        | .unset => (db.reports.find? (fun x => x.pending_folder_id == pfid)).bind
            (fun x => x.final_doc_link)
        | .explicitNone => none
        | .value v => some v)) ∧
    ((get_report (save_report_entry (save_report_entry emptyDB 1 "f"
        (.value 100) .unset .unset .unset .unset .unset .unset 0) 1 "f"
        .unset .unset (.value 50) .unset .unset .unset .unset 1) 1).map
      (fun x => (x.plus_value, x.evaluation_value)) =
        some (some 100, some 50)) ∧
    ((get_report (save_report_entry (save_report_entry (save_report_entry emptyDB 1 "f"
        (.value 100) .unset .unset .unset .unset .unset .unset 0) 1 "f"
        .unset .unset (.value 50) .unset .unset .unset .unset 1) 1 "f"
        .explicitNone .unset .unset .unset .unset .unset .unset 2) 1).map
      (fun x => (x.plus_value, x.evaluation_value)) =
        some (none, some 50)) := by
  refine ⟨?_, by decide, by decide⟩
  cases hfind : db.reports.find? (fun x => x.pending_folder_id == pfid) with
  | some r =>
    refine ⟨reportOverwrite fid (resolve_value p1 r.plus_value)
        (resolve_details p2 r.plus_value_details)
        (resolve_value p3 r.evaluation_value)
        (resolve_details p4 r.evaluation_details)
        (resolve_value p5 r.final_synthesis)
        (resolve_value p6 r.final_doc_id)
        (resolve_value p7 r.final_doc_link) now r,
      ?_, ?_, ?_, ?_, ?_, ?_, ?_, ?_, ?_⟩
    · rw [save_report_found_reports db pfid fid p1 p2 p3 p4 p5 p6 p7 now r hfind,
        find?_updIf (fun x => x.pending_folder_id == pfid)
          (reportOverwrite fid (resolve_value p1 r.plus_value)
            (resolve_details p2 r.plus_value_details)
            (resolve_value p3 r.evaluation_value)
            (resolve_details p4 r.evaluation_details)
            (resolve_value p5 r.final_synthesis)
            (resolve_value p6 r.final_doc_id)
            (resolve_value p7 r.final_doc_link) now) db.reports
          (fun a ha => ha), hfind, Option.map_some']
    · simpa using List.find?_some hfind
    · cases p1 <;> rfl
    · cases p2 <;> rfl
    · cases p3 <;> rfl
    · cases p4 <;> rfl
    · cases p5 <;> rfl
    · cases p6 <;> rfl
    · cases p7 <;> rfl
  | none =>
    refine ⟨⟨db.next_rep_id, pfid, fid, resolve_value p1 none,
        resolve_details p2 none, resolve_value p3 none, resolve_details p4 none,
        resolve_value p5 none, resolve_value p6 none, resolve_value p7 none,
        now, now⟩,
      ?_, rfl, ?_, ?_, ?_, ?_, ?_, ?_, ?_⟩
    · rw [save_report_notfound_reports db pfid fid p1 p2 p3 p4 p5 p6 p7 now hfind,
        find?_append_of_none _ _ _ hfind, List.find?_cons_of_pos _ (by simp)]
    · cases p1 <;> rfl
    · cases p2 <;> rfl
    · cases p3 <;> rfl
    · cases p4 <;> rfl
    · cases p5 <;> rfl
    · cases p6 <;> rfl
    · cases p7 <;> rfl

/-! ## Behaviour of the extraction store -/

/-- The update applied by `save_document_extraction`'s
`ON CONFLICT DO UPDATE`. -/
def docOverwrite (pfid : Option Nat) (fileid filename : Option String)
    (payload : String) (now : Nat) (x : DocumentExtraction) : DocumentExtraction :=
  { x with
    pending_folder_id := pfid
    file_id := fileid
    file_name := filename
    data_json := payload
    updated_at := now }

theorem save_doc_found_de (db : DB) (pfid : Option Nat) (fid dtype : String)
    (fileid filename : Option String) (d : Json) (now : Nat)
    (r : DocumentExtraction)
    (hfind : db.document_extractions.find?
      (fun x => x.folder_id == fid && x.doc_type == dtype) = some r) :
    (save_document_extraction db pfid fid dtype fileid filename d now).document_extractions =
      updIf (fun x => x.folder_id == fid && x.doc_type == dtype)
        (docOverwrite pfid fileid filename (dumps d) now)
        db.document_extractions := by
  unfold save_document_extraction
  rw [hfind]
  rfl

theorem save_doc_notfound_de (db : DB) (pfid : Option Nat) (fid dtype : String)
    (fileid filename : Option String) (d : Json) (now : Nat)
    (hfind : db.document_extractions.find?
      (fun x => x.folder_id == fid && x.doc_type == dtype) = none) :
    (save_document_extraction db pfid fid dtype fileid filename d now).document_extractions =
      db.document_extractions ++
        [⟨db.next_de_id, pfid, fid, dtype, fileid, filename, dumps d, now, now⟩] := by
  unfold save_document_extraction
  rw [hfind]

theorem de_key_iff (fid dtype : String) (x : DocumentExtraction) :
    (x.folder_id == fid && x.doc_type == dtype) = true ↔
      (x.folder_id, x.doc_type) = (fid, dtype) := by
  simp [Prod.ext_iff]

/-- Claim C5: `save_extraction` is an upsert keyed on
`(folder_id, doc_type)`: after a save exactly one row holds the key; a
re-save keeps the existing row's id and `created_at` while overwriting
`pending_folder_id`, `file_id`, `file_name` and the payload and refreshing
`updated_at`; saving twice with different data leaves one row holding the
encoding of the latest data. -/
theorem c5_save_extraction_upsert (db : DB) (pfid : Option Nat)
    (fid dtype : String) (fileid filename : Option String) (d : Json)
    (now : Nat) (hwf : db.WF) :
    ((save_document_extraction db pfid fid dtype fileid filename d
        now).document_extractions.countP
        (fun x => x.folder_id == fid && x.doc_type == dtype) = 1) ∧
    (∀ r ∈ db.document_extractions, r.folder_id = fid → r.doc_type = dtype →
      ∃ r', (save_document_extraction db pfid fid dtype fileid filename d
          now).document_extractions.find?
          (fun x => x.folder_id == fid && x.doc_type == dtype) = some r' ∧
        r'.id = r.id ∧ r'.created_at = r.created_at ∧
        r'.pending_folder_id = pfid ∧ r'.file_id = fileid ∧
        r'.file_name = filename ∧ r'.data_json = dumps d ∧
        r'.updated_at = now) ∧
    (((save_document_extraction (save_document_extraction emptyDB (some 1) "F" "T"
          none none (.bool true) 0) (some 1) "F" "T" none none (.bool false)
          1).document_extractions.map
        (fun x => (x.id, x.created_at, x.data_json))) =
      [(1, 0, dumps (.bool false))]) := by
  refine ⟨?_, fun r hr hfid hdt => ?_, by decide⟩
  · cases hfind : db.document_extractions.find?
        (fun x => x.folder_id == fid && x.doc_type == dtype) with
    | some r =>
      rw [save_doc_found_de db pfid fid dtype fileid filename d now r hfind,
        countP_updIf (fun x => x.folder_id == fid && x.doc_type == dtype)
          (docOverwrite pfid fileid filename (dumps d) now)
          db.document_extractions (fun a => rfl)]
      exact countP_of_key_nodup (fun x : DocumentExtraction => (x.folder_id, x.doc_type))
        (fid, dtype) (fun x => x.folder_id == fid && x.doc_type == dtype)
        (de_key_iff fid dtype) db.document_extractions hwf.2.1 r
        (List.mem_of_find?_eq_some hfind)
        ((de_key_iff fid dtype r).mp (by have hp := List.find?_some hfind; exact hp))
    | none =>
      rw [save_doc_notfound_de db pfid fid dtype fileid filename d now hfind,
        List.countP_append]
      have h0 : db.document_extractions.countP
          (fun x => x.folder_id == fid && x.doc_type == dtype) = 0 := by
        rw [List.countP_eq_zero]
        exact List.find?_eq_none.mp hfind
      simp [h0]
  · have hfind := find?_of_key_nodup
      (fun x : DocumentExtraction => (x.folder_id, x.doc_type)) (fid, dtype)
      (fun x => x.folder_id == fid && x.doc_type == dtype) (de_key_iff fid dtype)
      db.document_extractions hwf.2.1 r hr (by show (r.folder_id, r.doc_type) = (fid, dtype); rw [hfid, hdt])
    refine ⟨docOverwrite pfid fileid filename (dumps d) now r, ?_, rfl, rfl, rfl,
      rfl, rfl, rfl, rfl⟩
    rw [save_doc_found_de db pfid fid dtype fileid filename d now r hfind,
      find?_updIf (fun x => x.folder_id == fid && x.doc_type == dtype)
        (docOverwrite pfid fileid filename (dumps d) now)
        db.document_extractions (fun a ha => ha), hfind, Option.map_some']

theorem c5_witness :
    (save_document_extraction
      ⟨[], [⟨1, none, "F", "T", none, none, "old", 4, 4⟩], [], [], 1, 2, 1, 1⟩
      (some 9) "F" "T" (some "fil") (some "nam") (.bool true)
      8).document_extractions.countP
      (fun x => x.folder_id == "F" && x.doc_type == "T") = 1 :=
  (c5_save_extraction_upsert
    ⟨[], [⟨1, none, "F", "T", none, none, "old", 4, 4⟩], [], [], 1, 2, 1, 1⟩
    (some 9) "F" "T" (some "fil") (some "nam") (.bool true) 8 (by decide)).1

/-- Claim C9: not-found lookups return an explicit absent result:
`get_extraction` for an unknown `(folder_id, doc_type)`, `get_report` for
an unknown `pending_folder_id` and `job_with_details` for an unknown
`folder_id` all return `none` rather than failing. -/
theorem c9_not_found_lookups (db : DB) :
    (∀ fid dtype : String,
      (∀ x ∈ db.document_extractions, ¬(x.folder_id = fid ∧ x.doc_type = dtype)) →
      get_document_extraction db fid dtype = none) ∧
    (∀ pfid : Nat, (∀ x ∈ db.reports, x.pending_folder_id ≠ pfid) →
      get_report db pfid = none) ∧
    (∀ fid : String, (∀ x ∈ db.pending_folders, x.folder_id ≠ fid) →
      get_job_with_details db fid = none) := by
  refine ⟨fun fid dtype h => ?_, fun pfid h => ?_, fun fid h => ?_⟩
  · unfold get_document_extraction
    rw [List.find?_eq_none]
    intro x hx
    simp [de_key_iff fid dtype x, Prod.ext_iff]
    intro h1
    exact fun h2 => h x hx ⟨h1, h2⟩
  · unfold get_report
    rw [List.find?_eq_none]
    intro x hx
    simp [h x hx]
  · unfold get_job_with_details
    have hnone : db.pending_folders.find? (fun x => x.folder_id == fid) = none := by
      rw [List.find?_eq_none]
      intro x hx
      simp [h x hx]
    rw [hnone]

theorem c9_witness :
    (get_document_extraction
        ⟨[⟨1, "fA", "n", "e", "queued", none, 0, 0, none⟩],
          [⟨1, none, "F", "T", none, none, "x", 4, 4⟩], [], [], 2, 2, 1, 1⟩
        "F" "U" = none) ∧
      (get_report
        ⟨[⟨1, "fA", "n", "e", "queued", none, 0, 0, none⟩],
          [⟨1, none, "F", "T", none, none, "x", 4, 4⟩], [], [], 2, 2, 1, 1⟩
        7 = none) ∧
      (get_job_with_details
        ⟨[⟨1, "fA", "n", "e", "queued", none, 0, 0, none⟩],
          [⟨1, none, "F", "T", none, none, "x", 4, 4⟩], [], [], 2, 2, 1, 1⟩
        "zz" = none) :=
  ⟨(c9_not_found_lookups _).1 "F" "U" (by decide),
    (c9_not_found_lookups _).2.1 7 (by decide),
    (c9_not_found_lookups _).2.2 "zz" (by decide)⟩

/-! ## The payload round trip through the store -/

theorem dumpChars_ne_nil (j : Json) : dumpChars j ≠ [] := by
  obtain ⟨c, cs, hc, _⟩ := dump_head j
  rw [hc]
  simp

theorem dumps_ne_empty (j : Json) : dumps j ≠ "" := by
  intro h
  exact dumpChars_ne_nil j (congrArg String.data h)

theorem decodePayload_dumps (j : Json) : decodePayload (some (dumps j)) = some j := by
  show (if dumps j = "" then none else loads (dumps j)) = some j
  rw [if_neg (dumps_ne_empty j), loads_dumps]

theorem mem_updIf {α : Type} (p : α → Bool) (f : α → α) {l : List α} {a : α}
    (ha : a ∈ l) (hpa : p a = true) : f a ∈ updIf p f l := by
  have h2 : (if p a then f a else a) ∈ updIf p f l :=
    List.mem_map_of_mem (fun x => if p x then f x else x) ha
  rwa [if_pos hpa] at h2

/-- Characters at or above space that are neither quote nor backslash —
every non-ASCII character among them — are emitted literally. -/
theorem escChar_ordinary (c : Char) (h32 : 32 ≤ c.toNat) (hq : c ≠ '"')
    (hb : c ≠ '\\') : escChar c = [c] := by
  have h3 : c ≠ '\n' := by rintro rfl; exact absurd h32 (by decide)
  have h4 : c ≠ '\t' := by rintro rfl; exact absurd h32 (by decide)
  have h5 : c ≠ '\r' := by rintro rfl; exact absurd h32 (by decide)
  have h6 : c ≠ '\x08' := by rintro rfl; exact absurd h32 (by decide)
  have h7 : c ≠ '\x0c' := by rintro rfl; exact absurd h32 (by decide)
  unfold escChar
  rw [if_neg hq, if_neg hb, if_neg h3, if_neg h4, if_neg h5, if_neg h6,
    if_neg h7, if_neg (by omega)]

theorem escChars_ordinary (cs : List Char)
    (h : ∀ c ∈ cs, 32 ≤ c.toNat ∧ c ≠ '"' ∧ c ≠ '\\') : escChars cs = cs := by
  induction cs with
  | nil => rfl
  | cons c cs ih =>
    obtain ⟨h32, hq, hb⟩ := h c (by simp)
    have hesc : escChars (c :: cs) = escChar c ++ escChars cs := rfl
    rw [hesc, escChar_ordinary c h32 hq hb,
      ih (fun x hx => h x (List.mem_cons_of_mem c hx))]
    rfl

/-- Claim C8: payloads round-trip through the store: a `save_extraction`
stores exactly the `json.dumps` encoding, the read-view decode returns the
original structure for every payload, and the encoder writes every
ordinary character — in particular every non-ASCII character — unescaped. -/
theorem c8_payload_roundtrip (db : DB) (pfid : Option Nat) (fid dtype : String)
    (fileid filename : Option String) (d : Json) (now : Nat) :
    (∃ r' ∈ (save_document_extraction db pfid fid dtype fileid filename d
        now).document_extractions,
      r'.folder_id = fid ∧ r'.doc_type = dtype ∧ r'.data_json = dumps d ∧
      decodePayload (some r'.data_json) = some d) ∧
    (∀ d' : Json, decodePayload (some (dumps d')) = some d') ∧
    (∀ c : Char, 32 ≤ c.toNat → c ≠ '"' → c ≠ '\\' → escChar c = [c]) ∧
    (∀ s : String, (∀ c ∈ s.data, 32 ≤ c.toNat ∧ c ≠ '"' ∧ c ≠ '\\') →
      dumps (Json.str s) = String.mk ('"' :: (s.data ++ ['"']))) := by
  refine ⟨?_, decodePayload_dumps, escChar_ordinary, fun s hs => ?_⟩
  · cases hfind : db.document_extractions.find?
        (fun x => x.folder_id == fid && x.doc_type == dtype) with
    | some r =>
      rw [save_doc_found_de db pfid fid dtype fileid filename d now r hfind]
      have hkey := (de_key_iff fid dtype r).mp (by have hp := List.find?_some hfind; exact hp)
      refine ⟨docOverwrite pfid fileid filename (dumps d) now r,
        mem_updIf _ _ (List.mem_of_find?_eq_some hfind) (by have hp := List.find?_some hfind; exact hp),
        ?_, ?_, rfl, decodePayload_dumps d⟩
      · show r.folder_id = fid
        exact congrArg Prod.fst hkey
      · show r.doc_type = dtype
        exact congrArg Prod.snd hkey
    | none =>
      rw [save_doc_notfound_de db pfid fid dtype fileid filename d now hfind]
      exact ⟨⟨db.next_de_id, pfid, fid, dtype, fileid, filename, dumps d, now, now⟩,
        by simp, rfl, rfl, rfl, decodePayload_dumps d⟩
  · unfold dumps
    have heq : dumpChars (Json.str s) = '"' :: (s.data ++ ['"']) := by
      show dumpStrChars s = _
      unfold dumpStrChars
      rw [escChars_ordinary s.data hs, List.cons_append]
    rw [heq]

theorem c8_witness :
    (decodePayload (some (dumps (Json.str "é"))) = some (Json.str "é")) ∧
      (escChar 'é' = ['é']) ∧
      (dumps (Json.str "héllo") = String.mk ('"' :: ("héllo".data ++ ['"']))) :=
  ⟨(c8_payload_roundtrip emptyDB none "F" "T" none none (Json.str "é") 0).2.1
      (Json.str "é"),
    (c8_payload_roundtrip emptyDB none "F" "T" none none (Json.str "é") 0).2.2.1
      'é' (by decide) (by decide) (by decide),
    (c8_payload_roundtrip emptyDB none "F" "T" none none (Json.str "é") 0).2.2.2
      "héllo" (by decide)⟩

/-! ## Field encoding in the report store -/

/-- Counterexample to claim C4 as stated: `final_synthesis` is not
payload-encoded before storage. Saving the text `hello` stores the raw
text itself, which differs from its payload encoding (a quoted string). -/
theorem c4_counterexample :
    ((get_report (save_report_entry emptyDB 1 "f" .unset .unset .unset .unset
        (.value "hello") .unset .unset 0) 1).map (fun r => r.final_synthesis) =
      some (some "hello")) ∧
    some "hello" ≠ some (dumps (Json.str "hello")) := by
  exact ⟨rfl, by decide⟩

/-- Claim C4 as amended: on every `save_report` call with explicit values,
`plus_value_details` and `evaluation_details` are payload-encoded before
storage and decode back to the original structure on read; the scalars
`plus_value`, `evaluation_value`, `final_doc_id` and `final_doc_link` are
stored as-is; and `final_synthesis` is stored as-is (not encoded), the
read views attempting to decode it and falling back to the raw text. -/
theorem c4_field_encoding_amended (db : DB) (pfid : Nat) (fid : String)
    (q1 q3 : ℚ) (v2 v4 : Json) (s5 s6 s7 : String) (now : Nat) :
    ∃ r', (save_report_entry db pfid fid (.value q1) (.value v2) (.value q3)
        (.value v4) (.value s5) (.value s6) (.value s7) now).reports.find?
        (fun x => x.pending_folder_id == pfid) = some r' ∧
      r'.plus_value_details = some (dumps v2) ∧
      r'.evaluation_details = some (dumps v4) ∧
      (reportView r').plus_value_details = some v2 ∧
      (reportView r').evaluation_details = some v4 ∧
      r'.final_synthesis = some s5 ∧
      r'.plus_value = some q1 ∧ r'.evaluation_value = some q3 ∧
      r'.final_doc_id = some s6 ∧ r'.final_doc_link = some s7 ∧
      (∀ j, s5 ≠ "" → loads s5 = some j →
        (reportView r').final_synthesis = .decoded j) ∧
      (s5 ≠ "" → loads s5 = none →
        (reportView r').final_synthesis = .rawText s5) := by
  have main : ∃ r', (save_report_entry db pfid fid (.value q1) (.value v2)
      (.value q3) (.value v4) (.value s5) (.value s6) (.value s7)
      now).reports.find? (fun x => x.pending_folder_id == pfid) = some r' ∧
      r'.plus_value_details = some (dumps v2) ∧
      r'.evaluation_details = some (dumps v4) ∧
      r'.final_synthesis = some s5 ∧
      r'.plus_value = some q1 ∧ r'.evaluation_value = some q3 ∧
      r'.final_doc_id = some s6 ∧ r'.final_doc_link = some s7 := by
    cases hfind : db.reports.find? (fun x => x.pending_folder_id == pfid) with
    | some r =>
      refine ⟨reportOverwrite fid (resolve_value (.value q1) r.plus_value)
        (resolve_details (.value v2) r.plus_value_details)
        (resolve_value (.value q3) r.evaluation_value)
        (resolve_details (.value v4) r.evaluation_details)
        (resolve_value (.value s5) r.final_synthesis)
        (resolve_value (.value s6) r.final_doc_id)
        (resolve_value (.value s7) r.final_doc_link) now r,
        ?_, rfl, rfl, rfl, rfl, rfl, rfl, rfl⟩
      rw [save_report_found_reports db pfid fid (.value q1) (.value v2)
          (.value q3) (.value v4) (.value s5) (.value s6) (.value s7) now r hfind,
        find?_updIf (fun x => x.pending_folder_id == pfid)
          (reportOverwrite fid (resolve_value (.value q1) r.plus_value)
            (resolve_details (.value v2) r.plus_value_details)
            (resolve_value (.value q3) r.evaluation_value)
            (resolve_details (.value v4) r.evaluation_details)
            (resolve_value (.value s5) r.final_synthesis)
            (resolve_value (.value s6) r.final_doc_id)
            (resolve_value (.value s7) r.final_doc_link) now) db.reports
          (fun a ha => ha), hfind, Option.map_some']
    | none =>
      refine ⟨⟨db.next_rep_id, pfid, fid, some q1, some (dumps v2), some q3,
        some (dumps v4), some s5, some s6, some s7, now, now⟩, ?_, rfl, rfl, rfl,
        rfl, rfl, rfl, rfl⟩
      rw [save_report_notfound_reports db pfid fid (.value q1) (.value v2)
          (.value q3) (.value v4) (.value s5) (.value s6) (.value s7) now hfind,
        find?_append_of_none _ _ _ hfind, List.find?_cons_of_pos _ (by simp)]
      rfl
  obtain ⟨r', h0, h1, h2, h3, h4, h5, h6, h7⟩ := main
  refine ⟨r', h0, h1, h2, ?_, ?_, h3, h4, h5, h6, h7, ?_, ?_⟩
  · show decodePayload r'.plus_value_details = some v2
    rw [h1]
    exact decodePayload_dumps v2
  · show decodePayload r'.evaluation_details = some v4
    rw [h2]
    exact decodePayload_dumps v4
  · intro j hne hl
    show decodeSynth r'.final_synthesis = SynthView.decoded j
    rw [h3]
    show (if s5 = "" then SynthView.absent
      else match loads s5 with
        | some j => SynthView.decoded j
        | none => SynthView.rawText s5) = SynthView.decoded j
    rw [if_neg hne, hl]
  · intro hne hl
    show decodeSynth r'.final_synthesis = SynthView.rawText s5
    rw [h3]
    show (if s5 = "" then SynthView.absent
      else match loads s5 with
        | some j => SynthView.decoded j
        | none => SynthView.rawText s5) = SynthView.rawText s5
    rw [if_neg hne, hl]

theorem c4_witness :
    ∃ r', (save_report_entry emptyDB 1 "f" (.value 2) (.value (.bool true))
        (.value 3) (.value .null) (.value "syn") (.value "did") (.value "dl")
        7).reports.find? (fun x => x.pending_folder_id == 1) = some r' ∧
      r'.plus_value_details = some (dumps (.bool true)) ∧
      r'.evaluation_details = some (dumps .null) ∧
      (reportView r').plus_value_details = some (.bool true) ∧
      (reportView r').evaluation_details = some .null ∧
      r'.final_synthesis = some "syn" ∧
      r'.plus_value = some 2 ∧ r'.evaluation_value = some 3 ∧
      r'.final_doc_id = some "did" ∧ r'.final_doc_link = some "dl" ∧
      (∀ j, "syn" ≠ "" → loads "syn" = some j →
        (reportView r').final_synthesis = .decoded j) ∧
      ("syn" ≠ "" → loads "syn" = none →
        (reportView r').final_synthesis = .rawText "syn") :=
  c4_field_encoding_amended emptyDB 1 "f" 2 3 (.bool true) .null "syn" "did" "dl" 7

/-! ## Decode-failure policy of the read views -/

/-- Claim C6: when a stored extraction payload does not decode, the read
views return the affected record with its `data` field set to the absent
marker (`none`) rather than failing, and the other records of the result
are returned undisturbed: in both views every returned document entry is a
stored row paired with the decode of its own payload, and the returned
rows are exactly the stored rows the query matches. In particular, on a
store holding one undecodable and one decodable payload, the detail view
returns both rows, the corrupt one with `data = none`. -/
theorem c6_decode_failure_policy (db : DB) (fid : String) (job : PendingFolder)
    (hjob : db.pending_folders.find? (fun x => x.folder_id == fid) = some job) :
    (∃ details, get_job_with_details db fid = some details ∧
      List.Perm (details.documents.map Prod.fst)
        (db.document_extractions.filter (fun x => x.folder_id == fid)) ∧
      (∀ p ∈ details.documents, p.2 = decodePayload (some p.1.data_json))) ∧
    (∀ entry ∈ list_jobs_with_extractions db,
      List.Perm (entry.documents.map Prod.fst)
        (db.document_extractions.filter (fun d =>
          targetId (List.insertionSort
            (fun a b : PendingFolder => b.created_at ≤ a.created_at)
            db.pending_folders) d == some entry.job.id)) ∧
      (∀ p ∈ entry.documents, p.2 = decodePayload (some p.1.data_json))) ∧
    ((get_job_with_details
        ⟨[⟨1, "F", "n", "e", "queued", none, 0, 0, none⟩],
          [⟨1, some 1, "F", "a", none, none, "not json", 5, 5⟩,
            ⟨2, some 1, "F", "b", none, none, "[1, 2]", 3, 3⟩],
          [], [], 2, 3, 1, 1⟩ "F").map
        (fun x => x.documents.map (fun p => (p.1.id, p.2))) =
      some [(1, none), (2, some (Json.arr [Json.num 1, Json.num 2]))]) := by
  refine ⟨?_, ?_, by rfl⟩
  · refine ⟨_, by unfold get_job_with_details; rw [hjob], ?_, ?_⟩
    · show ((List.insertionSort docByCreatedDesc
        (db.document_extractions.filter (fun d => d.folder_id == fid))).map
          docView |>.map Prod.fst).Perm
        (db.document_extractions.filter (fun x => x.folder_id == fid))
      rw [List.map_map]
      have hmap : (List.insertionSort docByCreatedDesc
          (db.document_extractions.filter (fun d => d.folder_id == fid))).map
            (Prod.fst ∘ docView) =
          List.insertionSort docByCreatedDesc
            (db.document_extractions.filter (fun d => d.folder_id == fid)) := by
        rw [show Prod.fst ∘ docView = id from rfl, List.map_id]
      rw [hmap]
      exact List.perm_insertionSort _ _
    · intro p hp
      show p.2 = decodePayload (some p.1.data_json)
      obtain ⟨d, hd, rfl⟩ := List.mem_map.mp hp
      rfl
  · intro entry hentry
    unfold list_jobs_with_extractions at hentry
    obtain ⟨j, hj, rfl⟩ := List.mem_map.mp hentry
    constructor
    · show (((List.insertionSort docByCreatedDesc db.document_extractions).filter
          (fun d => targetId _ d == some j.id)).map docView |>.map Prod.fst).Perm _
      rw [List.map_map]
      have hmap : ∀ l : List DocumentExtraction, l.map (Prod.fst ∘ docView) = l := by
        intro l
        rw [show Prod.fst ∘ docView = id from rfl, List.map_id]
      rw [hmap]
      exact List.Perm.filter _ (List.perm_insertionSort _ _)
    · intro p hp
      obtain ⟨d, hd, rfl⟩ := List.mem_map.mp hp
      rfl

theorem c6_witness :
    ∃ details, get_job_with_details
        ⟨[⟨1, "F", "n", "e", "queued", none, 0, 0, none⟩],
          [⟨1, some 1, "F", "a", none, none, "not json", 5, 5⟩,
            ⟨2, some 1, "F", "b", none, none, "[1, 2]", 3, 3⟩],
          [], [], 2, 3, 1, 1⟩ "F" = some details ∧
      List.Perm (details.documents.map Prod.fst)
        (List.filter (fun x => x.folder_id == "F")
          [⟨1, some 1, "F", "a", none, none, "not json", 5, 5⟩,
            ⟨2, some 1, "F", "b", none, none, "[1, 2]", 3, 3⟩]) ∧
      (∀ p ∈ details.documents, p.2 = decodePayload (some p.1.data_json)) :=
  (c6_decode_failure_policy
    ⟨[⟨1, "F", "n", "e", "queued", none, 0, 0, none⟩],
      [⟨1, some 1, "F", "a", none, none, "not json", 5, 5⟩,
        ⟨2, some 1, "F", "b", none, none, "[1, 2]", 3, 3⟩],
      [], [], 2, 3, 1, 1⟩ "F" ⟨1, "F", "n", "e", "queued", none, 0, 0, none⟩
    (by rfl)).1

end HGD
